import Mathlib

/-!  Verification model of the shader source preprocessing and
     dependency-resolution engine (`gpu_shader_dependency.cc`).

     Text is embedded as `List Char`; `StringRef::find`/`rfind` return
     `Int` with `-1` as the not-found sentinel, exactly as the source's
     `int64_t` convention.  The two mutable fields of `GPUSource`
     (`dependencies`, `dependencies_init`) are modelled as an explicit
     state `RSt` threaded through the resolver; recursion is fuelled,
     with `none` denoting fuel exhaustion (shown unreachable for
     sufficient fuel).  Error printing (`print_error`) is modelled as an
     event appended to an error log.  -/

namespace GPUShaderDep

/-- Text (`StringRef` in the source) is a list of characters. -/
abbrev Str := List Char

/-- `needle` occurs in `hay` starting at index `i`. -/
def substrAt (hay needle : Str) (i : Nat) : Bool :=
  needle.isPrefixOf (hay.drop i)

/-- First index `i ≥ start` at which `needle` occurs
    (`std::string_view::find` with a non-negative start). -/
def findFrom (hay needle : Str) (start : Nat) : Option Nat :=
  (List.range (hay.length + 1)).find? (fun i => decide (start ≤ i) && substrAt hay needle i)

/-- Last index `i` with `i ≤ pos` at which `needle` occurs
    (`std::string_view::rfind`; a negative `pos` is converted to a huge
    `size_t`, so every position qualifies). -/
def rfindFrom (hay needle : Str) (pos : Int) : Option Nat :=
  ((List.range (hay.length + 1)).filter
    (fun (i : Nat) => (decide (pos < 0) || decide ((i : Int) ≤ pos)) && substrAt hay needle i)).getLast?

/-- `StringRef::find` returning `Int`, `-1` when absent.  A negative
    start converts to a huge `size_t` in the source, hence not found. -/
def findI (hay needle : Str) (pos : Int) : Int :=
  if pos < 0 then -1
  else match findFrom hay needle pos.toNat with
    | none => -1
    | some i => i

/-- `StringRef::rfind` returning `Int`, `-1` when absent. -/
def rfindI (hay needle : Str) (pos : Int) : Int :=
  match rfindFrom hay needle pos with
  | none => -1
  | some i => i

/-- Character at an index; the source's `StringRefNull` guarantees a
    NUL terminator one past the end. -/
def charAt (s : Str) (i : Int) : Char :=
  if i < 0 then Char.ofNat 0 else s.getD i.toNat (Char.ofNat 0)

/-- `StringRef::substr start size` (clamped like the `std` one). -/
def substr (s : Str) (start len : Int) : Str :=
  (s.drop start.toNat).take len.toNat

/-- `find_first_not_of` over a character set, from `pos`. -/
def findFirstNotOf (chars : Str) (s : Str) (pos : Int) : Int :=
  if pos < 0 then -1
  else match (List.range s.length).find? (fun i => decide (pos.toNat ≤ i) && !(chars.contains (s.getD i (Char.ofNat 0)))) with
    | none => -1
    | some i => i

/-- `find_first_of` over a character set, from `pos`. -/
def findFirstOf (chars : Str) (s : Str) (pos : Int) : Int :=
  if pos < 0 then -1
  else match (List.range s.length).find? (fun i => decide (pos.toNat ≤ i) && chars.contains (s.getD i (Char.ofNat 0))) with
    | none => -1
    | some i => i

/-- `find_last_not_of` over a character set: greatest `i ≤ pos` whose
    character is outside the set. -/
def findLastNotOf (chars : Str) (s : Str) (pos : Int) : Int :=
  match ((List.range s.length).filter
      (fun (i : Nat) => (decide (pos < 0) || decide ((i : Int) ≤ pos)) && !(chars.contains (s.getD i (Char.ofNat 0))))).getLast? with
  | none => -1
  | some i => i

/-- `GPUSource::is_in_comment`: the offset lies after an unclosed block
    comment opener or on a line-comment tail. -/
def is_in_comment (input : Str) (offset : Int) : Bool :=
  (rfindI input ("/*".toList) offset > rfindI input ("*/".toList) offset) ||
  (rfindI input ("//".toList) offset > rfindI input ("\n".toList) offset)

/-- The word-boundary characters accepted before a whole-word match
    (`ELEM(previous_char, '\n', '\t', ' ', ':', '(', ',')`). -/
def isWordSeparator (c : Char) : Bool :=
  c = '\n' || c = '\t' || c = ' ' || c = ':' || c = '(' || c = ','

/-- Loop body of `GPUSource::find_str`, fuelled.  Each iteration either
    returns or moves the offset strictly forward (resp. backward), so
    `input.length + 2` fuel always suffices; the fuel-0 branch is
    unreachable for the wrappers below. -/
def findStrGo (checkWord rev : Bool) (input keyword : Str) : Nat → Int → Int
  | 0, _ => -1
  | fuel+1, offset =>
    let p := if rev then rfindI input keyword offset else findI input keyword offset
    if p > 0 then
      if checkWord && !(isWordSeparator (charAt input (p - 1))) then
        findStrGo checkWord rev input keyword fuel (p + (if rev then -1 else 1))
      else if is_in_comment input p then
        findStrGo checkWord rev input keyword fuel (p + (if rev then -1 else 1))
      else p
    else p

/-- `GPUSource::find_str`: comment-aware (and optionally whole-word)
    token search. -/
def find_str (checkWord rev : Bool) (input keyword : Str) (offset : Int) : Int :=
  findStrGo checkWord rev input keyword (input.length + 2) offset

def find_keyword (input keyword : Str) (offset : Int) : Int :=
  find_str true false input keyword offset

def rfind_keyword (input keyword : Str) (offset : Int) : Int :=
  find_str true true input keyword offset

def find_token (input tok : Str) (offset : Int) : Int :=
  find_str false false input tok offset

def rfind_token (input tok : Str) (offset : Int) : Int :=
  find_str false true input tok offset

/-! ## Builtin-usage scan (`GPUSource::GPUSource`)

The thirteen flag bits of `shader::BuiltinBits` live in
`gpu_shader_create_info.hh`, outside the inspected sources; they are
modelled as distinct powers of two.  The constructor tests
`if (source.find(keyword, 0))`, i.e. the truthiness of the returned
`int64_t`, which is reproduced literally below as `≠ 0`. -/

def FRAG_COORD : Nat := 1

def FRONT_FACING : Nat := 2

def GLOBAL_INVOCATION_ID : Nat := 4

def INSTANCE_ID : Nat := 8

def LOCAL_INVOCATION_ID : Nat := 16

def LOCAL_INVOCATION_INDEX : Nat := 32

def NUM_WORK_GROUP : Nat := 64

def POINT_COORD : Nat := 128

def POINT_SIZE : Nat := 256

def PRIMITIVE_ID : Nat := 512

def VERTEX_ID : Nat := 1024

def WORK_GROUP_ID : Nat := 2048

def WORK_GROUP_SIZE : Nat := 4096

/-- The builtin scan performed by the `GPUSource` constructor on the raw
    text, one `if (source.find(kw, 0)) builtins |= BIT;` per keyword. -/
def builtins_scan (source : Str) : Nat :=
  let b : Nat := 0
  let b := if findI source ("gl_FragCoord".toList) 0 ≠ 0 then b ||| FRAG_COORD else b
  let b := if findI source ("gl_FrontFacing".toList) 0 ≠ 0 then b ||| FRONT_FACING else b
  let b := if findI source ("gl_GlobalInvocationID".toList) 0 ≠ 0 then b ||| GLOBAL_INVOCATION_ID else b
  let b := if findI source ("gl_InstanceID".toList) 0 ≠ 0 then b ||| INSTANCE_ID else b
  let b := if findI source ("gl_LocalInvocationID".toList) 0 ≠ 0 then b ||| LOCAL_INVOCATION_ID else b
  let b := if findI source ("gl_LocalInvocationIndex".toList) 0 ≠ 0 then b ||| LOCAL_INVOCATION_INDEX else b
  let b := if findI source ("gl_NumWorkGroup".toList) 0 ≠ 0 then b ||| NUM_WORK_GROUP else b
  let b := if findI source ("gl_PointCoord".toList) 0 ≠ 0 then b ||| POINT_COORD else b
  let b := if findI source ("gl_PointSize".toList) 0 ≠ 0 then b ||| POINT_SIZE else b
  let b := if findI source ("gl_PrimitiveID".toList) 0 ≠ 0 then b ||| PRIMITIVE_ID else b
  let b := if findI source ("gl_VertexID".toList) 0 ≠ 0 then b ||| VERTEX_ID else b
  let b := if findI source ("gl_WorkGroupID".toList) 0 ≠ 0 then b ||| WORK_GROUP_ID else b
  let b := if findI source ("gl_WorkGroupSize".toList) 0 ≠ 0 then b ||| WORK_GROUP_SIZE else b
  b

/-- A keyword occurs as a plain substring of the text (the behaviour the
    spec ascribes to the builtin scan); `List.IsInfix` is the textbook
    substring relation. -/
def occursIn (hay needle : Str) : Prop :=
  needle <:+: hay

/-! ## Error events

`print_error` writes a file/line/column diagnostic to stdout; it is
modelled as an event carrying the reporting fragment (whose `fullpath`
is printed) and the byte offset passed to `print_error`. -/

inductive EnumErrKind where
  | expectedOpenBrace
  | expectedColon
  | needsUint32
  | expectedCloseBrace
  | nestedBrace
  | expectedSemicolon

deriving DecidableEq

inductive ErrEv where
  | malformedRequire (frag : Str) (ofs : Nat)
  | missingDependency (frag : Str) (ofs : Nat)
  | funcRedefinition (frag : Str) (ofs : Int)
  | funcRedefinitionPrev (frag : Str) (ofs : Int)
  | tooManyParams (frag : Str) (ofs : Int)
  | unknownParamType (frag : Str) (ofs : Int)
  | enumError (kind : EnumErrKind) (ofs : Int)

deriving DecidableEq

/-! ## Enum rewriting (`GPUSource::enum_preprocess`) -/

/-- The character `{` (written numerically to keep string literals
    brace-free). -/
def lbrace : Char := Char.ofNat 123

/-- The character `}`. -/
def rbrace : Char := Char.ofNat 125

/-- Loop of `enum_preprocess`, fuelled: the scan cursor advances
    strictly at every iteration, so `input.length + 2` fuel suffices.
    Returns the final `last_pos`, the output buffer and the error log.
    Each `CHECK` failure logs an event and continues the scan without
    touching `last_pos`. -/
def enumGo (isCpp : Bool) (input : Str) :
    Nat → Int → Nat → Str → List ErrEv → (Nat × Str × List ErrEv)
  | 0, _, lastPos, output, errs => (lastPos, output, errs)
  | fuel+1, cursor, lastPos, output, errs =>
    let c := find_keyword input ("enum ".toList) (cursor + 1)
    if c = -1 then (lastPos, output, errs)
    else if 8 ≤ c && substr input (c - 8) 8 = "typedef ".toList then
      enumGo isCpp input fuel c lastPos output errs
    else
      let output := output ++ substr input (lastPos : Int) (c - (lastPos : Int))
      let nameStart := findI input (" ".toList) c
      let valuesStart := find_token input [lbrace] c
      if valuesStart = -1 then
        enumGo isCpp input fuel c lastPos output
          (errs ++ [ErrEv.enumError .expectedOpenBrace c])
      else
        let enumName := substr input nameStart (valuesStart - nameStart)
        let cppName : Option Str :=
          if isCpp then
            let nameEnd := find_token enumName (":".toList) 0
            if nameEnd = -1 then none
            else
              let underlyingType := find_keyword enumName ("uint32_t".toList) nameEnd
              if underlyingType = -1 then none
              else some (substr input nameStart nameEnd)
          else some enumName
        match cppName with
        | none =>
          -- one of the two C++-specific CHECKs fired; which one only
          -- affects the message, both report at `name_start`
          let kind :=
            if find_token enumName (":".toList) 0 = -1 then EnumErrKind.expectedColon
            else EnumErrKind.needsUint32
          enumGo isCpp input fuel c lastPos output
            (errs ++ [ErrEv.enumError kind nameStart])
        | some enumName =>
          let output := output ++ "#define ".toList ++ enumName ++ " uint\n".toList
          let valuesEnd := find_token input [rbrace] valuesStart
          if valuesEnd = -1 then
            enumGo isCpp input fuel c lastPos output
              (errs ++ [ErrEv.enumError .expectedCloseBrace c])
          else
            let valuesStart := valuesStart + 1
            let enumValues := substr input valuesStart (valuesEnd - valuesStart)
            let tok := find_token enumValues [lbrace] 0
            if tok ≠ -1 then
              enumGo isCpp input fuel c lastPos output
                (errs ++ [ErrEv.enumError .nestedBrace (valuesStart + tok)])
            else
              let lastEqual := rfind_token enumValues ("=".toList) valuesEnd
              let lastComma := rfind_token enumValues (",".toList) valuesEnd
              let enumValues :=
                if lastComma > lastEqual then substr input valuesStart lastComma else enumValues
              let output := output ++ "const uint ".toList ++ enumValues
              if charAt input (valuesEnd + 1) = ';' then
                enumGo isCpp input fuel (valuesEnd + 1) (valuesEnd + 1).toNat output errs
              else
                enumGo isCpp input fuel c lastPos output
                  (errs ++ [ErrEv.enumError .expectedSemicolon (valuesEnd + 1)])

/-- `GPUSource::enum_preprocess`: returns the materialised rewritten
    text (`none` when `last_pos` never moved, in which case
    `processed_source` is not allocated) together with the error log. -/
def enum_preprocess (isCpp : Bool) (input : Str) : Option Str × List ErrEv :=
  let (lastPos, output, errs) := enumGo isCpp input (input.length + 2) (-1) 0 [] []
  if lastPos = 0 then (none, errs)
  else (some (output ++ input.drop lastPos), errs)

/-- The fragment's effective text after construction: the rewritten
    form replaces the raw text only when it was materialised, and the
    rewriter only runs on shared-header fragments. -/
def effective_source (filename raw : Str) : Str × List ErrEv :=
  if (".h".toList).isSuffixOf filename || (".hh".toList).isSuffixOf filename then
    let r := enum_preprocess ((".hh".toList).isSuffixOf filename) raw
    (r.1.getD raw, r.2)
  else (raw, [])

/-! ## Library function extraction (`GPUSource::material_functions_parse`) -/

def wsChars : Str := " \n\t".toList

inductive GPUFunctionQual where
  | FUNCTION_QUAL_IN
  | FUNCTION_QUAL_OUT
  | FUNCTION_QUAL_INOUT

deriving DecidableEq

inductive eGPUType where
  | GPU_FLOAT
  | GPU_VEC2
  | GPU_VEC3
  | GPU_VEC4
  | GPU_MAT3
  | GPU_MAT4
  | GPU_TEX1D_ARRAY
  | GPU_TEX2D
  | GPU_TEX2D_ARRAY
  | GPU_TEX3D
  | GPU_CLOSURE
  | GPU_NONE

deriving DecidableEq

open GPUFunctionQual eGPUType

/-- The `function_parse` lambda: locate the next `void ` declaration
    after `cursor` and extract its name and argument list.  The
    prototype check in the source is a debug-only `BLI_assert`. -/
def function_parse (input : Str) (cursor : Int) : Option (Int × Str × Str) :=
  let c := find_keyword input ("void ".toList) (cursor + 1)
  if c = -1 then none else
  let argStart := find_token input ("(".toList) c
  if argStart = -1 then none else
  let argEnd := find_token input (")".toList) argStart
  if argEnd = -1 then none else
  let nameStart := findFirstNotOf wsChars input (findI input (" ".toList) c)
  if nameStart = -1 then none else
  let nameEnd := findLastNotOf wsChars input argStart
  if nameEnd = -1 then none else
  some (c, substr input nameStart (nameEnd - nameStart),
        substr input (argStart + 1) (argEnd - (argStart + 1)))

/-- The `keyword_parse` lambda: next whitespace-delimited keyword from
    `cursor`, returning the keyword and the updated cursor (unchanged
    when no keyword remains). -/
def keyword_parse (s : Str) (cursor : Int) : Str × Int :=
  let ks := findFirstNotOf wsChars s cursor
  if ks = -1 then ([], cursor)
  else
    let ke := findFirstOf wsChars s ks
    let ke := if ke = -1 then (s.length : Int) else ke
    (substr s ks (ke - ks), ke + 1)

/-- The comma-splitting loop of `arg_parse`, fuelled (the cursor moves
    strictly forward). Collects the raw text of each argument. -/
def arg_strings_go (s : Str) : Nat → Int → List Str
  | 0, _ => []
  | fuel+1, cursor =>
    let argStart := cursor + 1
    if (s.length : Int) ≤ argStart then []
    else
      let c := find_token s (",".toList) argStart
      let c := if c = -1 then (s.length : Int) else c
      substr s argStart (c - argStart) :: arg_strings_go s fuel c

def arg_strings (s : Str) : List Str := arg_strings_go s (s.length + 2) (-1)

/-- The keyword part of `arg_parse`: qualifier, type and name, with the
    no-qualifier shift when only two keywords are present. -/
def arg_keywords (arg : Str) : Str × Str × Str :=
  let q := keyword_parse arg 0
  let t := keyword_parse arg q.2
  let n := keyword_parse arg t.2
  if n.1 = [] then ([], q.1, t.1) else (q.1, t.1, n.1)

def parse_qualifier (qualifier : Str) : GPUFunctionQual :=
  if qualifier = "out".toList then FUNCTION_QUAL_OUT
  else if qualifier = "inout".toList then FUNCTION_QUAL_INOUT
  else FUNCTION_QUAL_IN

def parse_type (ty : Str) : eGPUType :=
  if ty = "float".toList then GPU_FLOAT
  else if ty = "vec2".toList then GPU_VEC2
  else if ty = "vec3".toList then GPU_VEC3
  else if ty = "vec4".toList then GPU_VEC4
  else if ty = "mat3".toList then GPU_MAT3
  else if ty = "mat4".toList then GPU_MAT4
  else if ty = "sampler1DArray".toList then GPU_TEX1D_ARRAY
  else if ty = "sampler2DArray".toList then GPU_TEX2D_ARRAY
  else if ty = "sampler2D".toList then GPU_TEX2D
  else if ty = "sampler3D".toList then GPU_TEX3D
  else if ty = "Closure".toList then GPU_CLOSURE
  else GPU_NONE

/-- The parameter loop of `material_functions_parse`: fills
    `paramqual`/`paramtype` (modelled as lists whose `i`-th entry is the
    write at index `i`) while `totparam < cap`, reporting
    `tooManyParams` and stopping once the capacity is hit with
    arguments remaining, and `unknownParamType` for a type keyword
    outside the closed vocabulary (which is still recorded as
    `GPU_NONE` and does not stop the scan). -/
def process_params (cap : Nat) (fragname source funcName : Str) :
    List Str → Nat → (List GPUFunctionQual × List eGPUType × List ErrEv)
  | [], _ => ([], [], [])
  | arg :: rest, tot =>
    if cap ≤ tot then
      ([], [], [ErrEv.tooManyParams fragname (findI source funcName 0)])
    else
      let k := arg_keywords arg
      let qual := parse_qualifier k.1
      let ty := parse_type k.2.1
      let errHere : List ErrEv :=
        if ty = GPU_NONE then
          let ofs0 := findI source funcName 0
          let ofs1 := find_keyword source k.2.2 ofs0
          let ofs2 := rfind_keyword source k.2.1 ofs1
          [ErrEv.unknownParamType fragname ofs2]
        else []
      let r := process_params cap fragname source funcName rest (tot + 1)
      (qual :: r.1, ty :: r.2.1, errHere ++ r.2.2)

/-- `GPUFunction`: name, back-reference to the owning `GPUSource`
    (split into its identity `srcName` and the text reachable through
    the pointer, `srcText`), and the recorded parameters. -/
structure GPUFunction where
  name : Str
  srcName : Str
  srcText : Str
  paramqual : List GPUFunctionQual
  paramtype : List eGPUType
  totparam : Nat

deriving DecidableEq

/-- The function dictionary plus the error log, i.e. the
    construction-time global state touched by the parser. -/
structure FunSt where
  dict : List (Str × GPUFunction)
  errs : List ErrEv

deriving DecidableEq

def dictLookup (d : List (Str × GPUFunction)) (n : Str) : Option GPUFunction :=
  (d.find? (fun p => decide (p.1 = n))).map (fun p => p.2)

/-- Body of the `while (function_parse ...)` loop for one declaration:
    `Map::add` fails when the key is present; a collision from a
    different file reports a redefinition citing both declaration
    offsets, a collision from the same file is silently dropped, and a
    fresh name is inserted with its parsed parameters (first writer
    wins). -/
def handle_function (cap : Nat) (fragname input : Str) (st : FunSt) (funcName funcArgs : Str) : FunSt :=
  match dictLookup st.dict funcName with
  | some other =>
    if other.srcName ≠ fragname then
      { st with errs := st.errs ++
          [ErrEv.funcRedefinition fragname (findI input funcName 0),
           ErrEv.funcRedefinitionPrev fragname (findI other.srcText funcName 0)] }
    else st
  | none =>
    let r := process_params cap fragname input funcName (arg_strings funcArgs) 0
    { dict := st.dict ++ [(funcName, ⟨funcName, fragname, input, r.1, r.2.1, r.2.1.length⟩)],
      errs := st.errs ++ r.2.2 }

/-- The declaration loop of `material_functions_parse`, fuelled (the
    cursor moves strictly forward every iteration). -/
def material_functions_go (cap : Nat) (fragname input : Str) : Nat → Int → FunSt → FunSt
  | 0, _, st => st
  | fuel+1, cursor, st =>
    match function_parse input cursor with
    | none => st
    | some r =>
      material_functions_go cap fragname input fuel r.1
        (handle_function cap fragname input st r.2.1 r.2.2)

def material_functions_parse (cap : Nat) (fragname input : Str) (st : FunSt) : FunSt :=
  material_functions_go cap fragname input (input.length + 2) (-1) st

def is_from_material_library (filename : Str) : Bool :=
  ("gpu_shader_material_".toList).isPrefixOf filename &&
  (".glsl".toList).isSuffixOf filename

/-! ## Fragments and construction -/

/-- The immutable part of a `GPUSource`: logical name, effective text
    (after enum rewriting) and the construction-time builtin bitset.
    The two fields mutated by resolution (`dependencies`,
    `dependencies_init`) live in the explicit resolver state `RSt`. -/
structure GPUSource where
  filename : Str
  source : Str
  builtins : Nat

deriving DecidableEq

/-- The `GPUSource` constructor: scan builtins on the raw text, then
    rewrite enums for shared headers, then extract library functions
    from material-library fragments (into the global function state). -/
def mkGPUSource (cap : Nat) (filename raw : Str) (fs : FunSt) : GPUSource × FunSt :=
  let b := builtins_scan raw
  let e := effective_source filename raw
  let fs := { fs with errs := fs.errs ++ e.2 }
  let fs := if is_from_material_library filename then
      material_functions_parse cap filename e.1 fs
    else fs
  ({ filename := filename, source := e.1, builtins := b }, fs)

/-- The `SHADER_SOURCE` expansion in `gpu_shader_dependency_init`: wrap
    every (name, raw text) input pair into a fragment, threading the
    global function dictionary. -/
def build_sources (cap : Nat) (inputs : List (Str × Str)) : List GPUSource × FunSt :=
  inputs.foldl (fun acc p =>
    let r := mkGPUSource cap p.1 p.2 acc.2
    (acc.1 ++ [r.1], r.2)) ([], ⟨[], []⟩)

/-! ## Dependency resolution (`GPUSource::init_dependencies`) -/

/-- One require-directive as scanned from the text: the referenced name
    and the offset just after the opening parenthesis (used for error
    reporting), or a directive whose closing `)` is missing. -/
inductive ReqDir where
  | good (name : Str) (ofs : Nat)
  | malformed (ofs : Nat)

deriving DecidableEq

/-- The scan loop of `init_dependencies` over the immutable text,
    fuelled (the position moves strictly forward): each iteration finds
    `pragma BLENDER_REQUIRE(`, the first `(` at or after it (always the
    one ending the literal) and the first `)`; a missing `)` aborts the
    scan. -/
def scanRequiresGo (input : Str) : Nat → Nat → List ReqDir
  | 0, _ => []
  | fuel+1, pos =>
    match findFrom input ("pragma BLENDER_REQUIRE(".toList) pos with
    | none => []
    | some p =>
      let start := (findI input ("(".toList) p + 1).toNat
      match findFrom input (")".toList) p with
      | none => [ReqDir.malformed start]
      | some e =>
        ReqDir.good (substr input (start : Int) ((e : Int) - (start : Int))) start ::
          scanRequiresGo input fuel (p + 1)

def scanRequires (input : Str) : List ReqDir :=
  scanRequiresGo input (input.length + 2) 0

/-- The mutable resolver state: per-fragment `dependencies_init` flag
    and `dependencies` list (keyed by `filename`), plus the error log. -/
structure RSt where
  dependencies_init : Str → Bool
  dependencies : Str → List Str
  errs : List ErrEv

/-- Pointwise function update (used for the two per-fragment fields). -/
def upd {α : Type} (f : Str → α) (a : Str) (v : α) : Str → α :=
  fun x => if x = a then v else f x

def setFlag (st : RSt) (n : Str) : RSt :=
  { st with dependencies_init := upd st.dependencies_init n true }

/-- `Vector::append_non_duplicates` for a single element. -/
def appendOne (l : List Str) (x : Str) : List Str :=
  if x ∈ l then l else l ++ [x]

/-- Appending a whole list element-by-element without duplicates. -/
def appendND (l xs : List Str) : List Str :=
  xs.foldl appendOne l

def appendDeps (st : RSt) (self : Str) (xs : List Str) : RSt :=
  { st with dependencies := upd st.dependencies self (appendND (st.dependencies self) xs) }

def logErr (st : RSt) (e : ErrEv) : RSt :=
  { st with errs := st.errs ++ [e] }

def initSt : RSt := ⟨fun _ => false, fun _ => [], []⟩

/-- `GPUSourceDictionnary` lookup by logical name. -/
def lookupFrag (reg : List GPUSource) (n : Str) : Option GPUSource :=
  reg.find? (fun g => decide (g.filename = n))

/-- The directive-processing part of the `init_dependencies` loop,
    abstracted over the recursive resolve call: malformed directive and
    unknown name report an error and fail (result 1); a failing
    recursive resolve propagates as 1; otherwise the dependency's own
    dependencies and then the dependency itself are appended without
    duplicates, and scanning continues.  `none` = out of fuel inside
    `resolve`. -/
def init_dependencies_list (reg : List GPUSource)
    (resolve : RSt → GPUSource → Option (RSt × Nat)) (self : Str) :
    RSt → List ReqDir → Option (RSt × Nat)
  | st, [] => some (st, 0)
  | st, ReqDir.malformed ofs :: _ =>
    some (logErr st (ErrEv.malformedRequire self ofs), 1)
  | st, ReqDir.good name ofs :: rest =>
    match lookupFrag reg name with
    | none => some (logErr st (ErrEv.missingDependency self ofs), 1)
    | some dep =>
      match resolve st dep with
      | none => none
      | some (st2, r) =>
        if r = 0 then
          init_dependencies_list reg resolve self
            (appendDeps st2 self (st2.dependencies dep.filename ++ [dep.filename])) rest
        else some (st2, 1)

/-- `GPUSource::init_dependencies`, fuelled: return immediately when the
    memoization flag is set, otherwise set the flag *before* scanning
    and process the directives in textual order. -/
def init_dependencies (reg : List GPUSource) : Nat → RSt → GPUSource → Option (RSt × Nat)
  | 0, _, _ => none
  | fuel+1, st, f =>
    if st.dependencies_init f.filename then some (st, 0)
    else
      init_dependencies_list reg (fun st2 g => init_dependencies reg fuel st2 g)
        f.filename (setFlag st f.filename) (scanRequires f.source)

/-- Number of registry fragments whose flag is still unset (bounds the
    recursion depth). -/
def unresolvedCount (reg : List GPUSource) (st : RSt) : Nat :=
  (reg.filter (fun g => !st.dependencies_init g.filename)).length

/-- The resolve-everything loop of `gpu_shader_dependency_init`,
    summing the per-fragment error results. -/
def resolveAll (reg : List GPUSource) : RSt × Nat :=
  reg.foldl (fun acc f =>
    match init_dependencies reg (reg.length + 1) acc.1 f with
    | none => acc
    | some r => (r.1, acc.2 + r.2)) (initSt, 0)

/-! ## Queries -/

/-- The name sequence underlying `GPUSource::build`: the resolved
    dependencies in order, then the fragment itself. -/
def buildNames (st : RSt) (f : GPUSource) : List Str :=
  st.dependencies f.filename ++ [f.filename]

def sourceOf (reg : List GPUSource) (n : Str) : Str :=
  match lookupFrag reg n with
  | some g => g.source
  | none => []

/-- `GPUSource::build`: the texts of the dependencies in order followed
    by the fragment's own effective text. -/
def build (reg : List GPUSource) (st : RSt) (f : GPUSource) : List Str :=
  (st.dependencies f.filename).map (sourceOf reg) ++ [f.source]

def builtinOf (reg : List GPUSource) (n : Str) : Nat :=
  match lookupFrag reg n with
  | some g => g.builtins
  | none => 0

/-- `GPUSource::builtins_get`: the union over the dependency list. -/
def builtins_get (reg : List GPUSource) (st : RSt) (f : GPUSource) : Nat :=
  (st.dependencies f.filename).foldl (fun acc d => acc ||| builtinOf reg d) 0

/-- `gpu_shader_dependency_get_builtins`: empty or unregistered names
    yield the empty bitset. -/
def gpu_shader_dependency_get_builtins (reg : List GPUSource) (st : RSt) (name : Str) : Nat :=
  if name = [] then 0
  else match lookupFrag reg name with
    | none => 0
    | some f => builtins_get reg st f

/-! ## Helper lemmas: relative order in a list -/

/-- `a` occurs strictly before `b` in `l`. -/
def IsBefore (l : List Str) (a b : Str) : Prop :=
  ∃ l1 l2 l3, l = l1 ++ a :: (l2 ++ b :: l3)

/-- Registered logical names are pairwise distinct (`add_new` in
    `gpu_shader_dependency_init` asserts exactly this). -/
def RegNodup (reg : List GPUSource) : Prop :=
  (reg.map (fun g => g.filename)).Nodup

/-! ## Basic evolution facts about the resolver

Flags only ever get set; the dependency list of a fragment whose flag
is already set is never touched again (its single scan body has
returned, and every append targets the fragment currently being
scanned); duplicate-freeness of every dependency list is preserved. -/

/-- How any resolver step may change the state. -/
structure BasicEvo (st st' : RSt) : Prop where
  flagLe : ∀ n, st.dependencies_init n = true → st'.dependencies_init n = true
  frame : ∀ n, st.dependencies_init n = true → st'.dependencies n = st.dependencies n
  nodup : ∀ n, (st.dependencies n).Nodup → (st'.dependencies n).Nodup

/-- A directive that a successful scan processed: well-formed and its
    name registered. -/
def dirOK (reg : List GPUSource) : ReqDir → Prop
  | ReqDir.good n _ => (lookupFrag reg n).isSome = true
  | ReqDir.malformed _ => False

instance dirOK_dec (reg : List GPUSource) (d : ReqDir) : Decidable (dirOK reg d) :=
  match d with
  | ReqDir.good n _ => inferInstanceAs (Decidable ((lookupFrag reg n).isSome = true))
  | ReqDir.malformed _ => inferInstanceAs (Decidable False)

/-! ## Success propagation

If every fragment reachable from `f` through require-directives has
only well-formed directives naming registered fragments, resolving `f`
succeeds (memoization silently cuts even cycles). -/

/-- The directives of the fragment registered under a name. -/
def dirsOfName (reg : List GPUSource) (n : Str) : List ReqDir :=
  match lookupFrag reg n with
  | some g => scanRequires g.source
  | none => []

/-- The name is registered and all its directives are well-formed and
    registered. -/
def WellReqN (reg : List GPUSource) (n : Str) : Prop :=
  (lookupFrag reg n).isSome = true ∧ ∀ d ∈ dirsOfName reg n, dirOK reg d

/-- The static require edge: fragment `a` has a well-formed directive
    naming `b`. -/
def Step (reg : List GPUSource) (a b : Str) : Prop :=
  ∃ ofs, ReqDir.good b ofs ∈ dirsOfName reg a

/-! ## Failure propagation

A fragment whose scan body ran to completion has all its directives
well-formed, registered, and (at that point) flagged.  Tracking the
stack of still-open ancestors `A` makes the invariant survive the
recursion. -/

/-- All directives of the fragment named `n` are well-formed, name
    registered fragments, and those fragments are flagged in `st`. -/
def Closed (reg : List GPUSource) (st : RSt) (n : Str) : Prop :=
  ∀ d ∈ dirsOfName reg n, dirOK reg d ∧
    ∀ m ofs, d = ReqDir.good m ofs → st.dependencies_init m = true

/-! ## The topological-order invariant

On a require graph that admits a rank function decreasing along edges
(the standard certificate of cycle-freeness), resolution maintains: a
fragment whose scan body has completed (`entryOK`) has a duplicate-free
dependency list in which every entry is preceded by that entry's own
dependencies; mid-scan fragments are tracked on the ancestor stack. -/

/-- The dependency list of `n` is duplicate-free, and each entry is
    flagged, of smaller rank, has its own dependency list contained in
    `n`'s, and placed after all of its own dependencies. -/
def entryOK (rank : Str → Nat) (st : RSt) (n : Str) : Prop :=
  (st.dependencies n).Nodup ∧
  ∀ d ∈ st.dependencies n,
    st.dependencies_init d = true ∧
    rank d < rank n ∧
    st.dependencies d ⊆ st.dependencies n ∧
    ∀ e ∈ st.dependencies d, IsBefore (st.dependencies n) e d

/-- Ground state facts: unflagged fragments have empty lists, and every
    list entry anywhere is flagged and of smaller rank than its owner. -/
def Inv (rank : Str → Nat) (st : RSt) : Prop :=
  (∀ n, st.dependencies_init n = false → st.dependencies n = []) ∧
  (∀ n x, x ∈ st.dependencies n → st.dependencies_init x = true ∧ rank x < rank n)

/-- Every flagged fragment is either a still-open ancestor or fully
    settled. -/
def OpenInv (rank : Str → Nat) (st : RSt) (A : List Str) : Prop :=
  ∀ n, st.dependencies_init n = true → n ∈ A ∨ entryOK rank st n

/-- A directive respects the rank function. -/
def dirRankLt (rank : Str → Nat) (self : Str) : ReqDir → Bool
  | ReqDir.good m _ => decide (rank m < rank self)
  | ReqDir.malformed _ => true

/-- The rank decreases along every require edge of the registry: the
    rank-certificate form of "the require graph is cycle-free". -/
def EdgeRank (reg : List GPUSource) (rank : Str → Nat) : Prop :=
  ∀ g ∈ reg, ∀ d ∈ scanRequires g.source, dirRankLt rank g.filename d = true

/-! ## Concrete fixtures used by the claim theorems -/

/-- Fragment `A` requires `B`. -/
def fragA : GPUSource := ⟨"A".toList, "pragma BLENDER_REQUIRE(B)\nAtext".toList, 0⟩

/-- Fragment `B` requires `C`. -/
def fragB : GPUSource := ⟨"B".toList, "pragma BLENDER_REQUIRE(C)\nBtext".toList, 0⟩

/-- Fragment `C` has no dependencies. -/
def fragC : GPUSource := ⟨"C".toList, "Ctext".toList, 0⟩

def regABC : List GPUSource := [fragA, fragB, fragC]

/-- A rank certificate for `regABC`: decreasing along both edges. -/
def rankABC : Str → Nat :=
  fun n => if n = "B".toList then 1 else if n = "C".toList then 0 else 2

/-- The state after resolving `A` in `regABC` from the initial state. -/
def c3st : RSt := ((init_dependencies regABC 4 initSt fragA).getD (initSt, 2)).1

/-- A fragment whose text holds none of the builtin keywords; the
    constructor's scan nevertheless sets every flag bit (`find` returns
    `-1`, which is truthy). -/
def fragX : GPUSource := ⟨"x.glsl".toList, "x".toList, builtins_scan ("x".toList)⟩

def regX : List GPUSource := [fragX]

/-- The state after resolving `fragX` (which has no directives). -/
def c2st : RSt := ((init_dependencies regX 2 initSt fragX).getD (initSt, 2)).1

/-- A fragment that requires itself. -/
def fragF : GPUSource := ⟨"F".toList, "pragma BLENDER_REQUIRE(F)".toList, 0⟩

def regF : List GPUSource := [fragF]

def c6st : RSt := ((init_dependencies regF 2 initSt fragF).getD (initSt, 2)).1

/-- A fragment with a require-directive naming an unregistered
    fragment, and a sibling that requires it. -/
def fragFM : GPUSource := ⟨"F".toList, "pragma BLENDER_REQUIRE(missing)".toList, 0⟩

def fragG : GPUSource := ⟨"G".toList, "pragma BLENDER_REQUIRE(F)".toList, 0⟩

def regFG : List GPUSource := [fragFM, fragG]

/-- State after `F`'s failed resolution. -/
def c4st1 : RSt := ((init_dependencies regFG 3 initSt fragFM).getD (initSt, 2)).1

/-- State after subsequently resolving `G` (which hits the memoized
    flag on the already-failed `F`). -/
def c4st2 : RSt := ((init_dependencies regFG 3 c4st1 fragG).getD (initSt, 2)).1

/-- Two fragments requiring each other: a require cycle. -/
def fragP : GPUSource := ⟨"P".toList, "pragma BLENDER_REQUIRE(Q)".toList, 0⟩

def fragQ : GPUSource := ⟨"Q".toList, "pragma BLENDER_REQUIRE(P)".toList, 0⟩

def regPQ : List GPUSource := [fragP, fragQ]

/-! ## C2 -/

/-- Bitwise union of a list of bitsets. -/
def unionFlags (l : List Nat) : Nat := l.foldl (fun a b => a ||| b) 0

instance (reg : List GPUSource) (rank : Str → Nat) : Decidable (EdgeRank reg rank) := by
  unfold EdgeRank
  infer_instance

instance (reg : List GPUSource) : Decidable (RegNodup reg) := by
  unfold RegNodup
  infer_instance

instance (reg : List GPUSource) (n : Str) : Decidable (WellReqN reg n) := by
  unfold WellReqN
  infer_instance

/-! ## C8 -/

/-- An occurrence of the token `enum ` that `find_keyword` accepts: a
    match at offset 0 is accepted unconditionally (the `offset > 0`
    guard skips both checks there); a later match needs a word-boundary
    character before it and must not lie in a comment. -/
def enumTokenAt (input : Str) (i : Nat) : Prop :=
  substrAt input ("enum ".toList) i = true ∧
  (i = 0 ∨ (isWordSeparator (charAt input ((i : Int) - 1)) = true ∧
            is_in_comment input (i : Int) = false))

instance (input : Str) (i : Nat) : Decidable (enumTokenAt input i) := by
  unfold enumTokenAt
  infer_instance

/-- Witness for C8: a text whose only `enum ` occurrence is inside a
    line comment. -/
def c8input : Str := "// enum x\nint a;".toList

/-! ## C7 -/

/-- Two material-library fragments declaring the same function name. -/
def lib1 : Str := "gpu_shader_material_a.glsl".toList

def lib2 : Str := "gpu_shader_material_b.glsl".toList

def text1 : Str := "void foo(float x)\x7b \x7d".toList

def text2 : Str := "void foo(vec3 v)\x7b \x7d".toList

/-- One library fragment declaring the same name twice. -/
def textDup : Str := "void foo(float x)\x7b \x7d\nvoid foo(vec3 v)\x7b \x7d".toList

/-- A dictionary already holding `foo` owned by `lib1`. -/
def otherFoo : GPUFunction :=
  ⟨"foo".toList, lib1, text1, [GPUFunctionQual.FUNCTION_QUAL_IN], [eGPUType.GPU_FLOAT], 1⟩

def stFoo : FunSt := ⟨[("foo".toList, otherFoo)], []⟩

/-! ## Theorems -/

/-! ## Helper lemmas: state updates -/

theorem upd_same {α : Type} (f : Str → α) (a : Str) (v : α) : upd f a v a = v := by
  simp [upd]

theorem upd_ne {α : Type} (f : Str → α) (a : Str) (v : α) {x : Str} (h : x ≠ a) :
    upd f a v x = f x := by
  simp [upd, h]

theorem setFlag_deps (st : RSt) (n : Str) : (setFlag st n).dependencies = st.dependencies := rfl

theorem setFlag_flag_self (st : RSt) (n : Str) : (setFlag st n).dependencies_init n = true := by
  simp [setFlag, upd_same]

theorem setFlag_flag_mono (st : RSt) (n m : Str) (h : st.dependencies_init m = true) :
    (setFlag st n).dependencies_init m = true := by
  by_cases hm : m = n
  · subst hm; exact setFlag_flag_self st m
  · simpa [setFlag, upd_ne _ _ _ hm] using h

theorem setFlag_flag_ne (st : RSt) (n : Str) {m : Str} (h : m ≠ n) :
    (setFlag st n).dependencies_init m = st.dependencies_init m := by
  simp [setFlag, upd_ne _ _ _ h]

theorem setFlag_flag_of (st : RSt) (n m : Str)
    (h : (setFlag st n).dependencies_init m = true) :
    m = n ∨ st.dependencies_init m = true := by
  by_cases hm : m = n
  · exact Or.inl hm
  · right; simpa [setFlag, upd_ne _ _ _ hm] using h

theorem appendDeps_flag (st : RSt) (self : Str) (xs : List Str) :
    (appendDeps st self xs).dependencies_init = st.dependencies_init := rfl

theorem appendDeps_deps_self (st : RSt) (self : Str) (xs : List Str) :
    (appendDeps st self xs).dependencies self = appendND (st.dependencies self) xs := by
  simp [appendDeps, upd_same]

theorem appendDeps_deps_ne (st : RSt) (self : Str) (xs : List Str) {n : Str} (h : n ≠ self) :
    (appendDeps st self xs).dependencies n = st.dependencies n := by
  simp [appendDeps, upd_ne _ _ _ h]

theorem logErr_flag (st : RSt) (e : ErrEv) : (logErr st e).dependencies_init = st.dependencies_init := rfl

theorem logErr_deps (st : RSt) (e : ErrEv) : (logErr st e).dependencies = st.dependencies := rfl

/-! ## Helper lemmas: `append_non_duplicates` -/

theorem appendOne_nodup {l : List Str} (h : l.Nodup) (x : Str) : (appendOne l x).Nodup := by
  unfold appendOne
  split
  · exact h
  · next hx => simpa [List.nodup_append] using ⟨h, hx⟩

theorem appendND_nodup {xs : List Str} : ∀ {l : List Str}, l.Nodup → (appendND l xs).Nodup := by
  induction xs with
  | nil => intro l h; exact h
  | cons x xs ih =>
    intro l h
    exact ih (appendOne_nodup h x)

theorem mem_appendOne {l : List Str} {x y : Str} :
    y ∈ appendOne l x ↔ y ∈ l ∨ y = x := by
  unfold appendOne
  split
  · next hx =>
    constructor
    · exact Or.inl
    · rintro (h | rfl) <;> [exact h; exact hx]
  · simp

theorem mem_appendND {xs : List Str} : ∀ {l : List Str} {y : Str},
    y ∈ appendND l xs ↔ y ∈ l ∨ y ∈ xs := by
  induction xs with
  | nil => simp [appendND]
  | cons x xs ih =>
    intro l y
    show y ∈ appendND (appendOne l x) xs ↔ _
    rw [ih, mem_appendOne]
    constructor
    · rintro ((h | rfl) | h)
      · exact Or.inl h
      · exact Or.inr (List.mem_cons_self _ _)
      · exact Or.inr (List.mem_cons_of_mem _ h)
    · rintro (h | h)
      · exact Or.inl (Or.inl h)
      · rcases List.mem_cons.mp h with rfl | h
        · exact Or.inl (Or.inr rfl)
        · exact Or.inr h

theorem subset_appendND {xs l : List Str} : l ⊆ appendND l xs := by
  intro y hy
  exact mem_appendND.mpr (Or.inl hy)

/-- With a duplicate-free addition list, `append_non_duplicates` is
    plain append of the not-already-present elements. -/
theorem appendND_eq_filter {xs : List Str} : ∀ {l : List Str}, xs.Nodup →
    appendND l xs = l ++ xs.filter (fun x => !(decide (x ∈ l))) := by
  induction xs with
  | nil => intro l _; simp [appendND]
  | cons x xs ih =>
    intro l hn
    have hx : x ∉ xs := (List.nodup_cons.mp hn).1
    have hxs : xs.Nodup := (List.nodup_cons.mp hn).2
    show appendND (appendOne l x) xs = _
    by_cases hmem : x ∈ l
    · rw [show appendOne l x = l from by simp [appendOne, hmem]]
      rw [ih hxs]
      simp [List.filter_cons, hmem]
    · rw [show appendOne l x = l ++ [x] from by simp [appendOne, hmem]]
      rw [ih hxs]
      have hfeq : xs.filter (fun y => !(decide (y ∈ l ++ [x]))) =
          xs.filter (fun y => !(decide (y ∈ l))) := by
        apply List.filter_congr
        intro y hy
        have hyx : y ≠ x := fun h => hx (h ▸ hy)
        simp [List.mem_append, hyx]
      rw [hfeq, List.filter_cons]
      simp [hmem, List.append_assoc]

theorem IsBefore.append_right {l : List Str} {a b : Str} (k : List Str)
    (h : IsBefore l a b) : IsBefore (l ++ k) a b := by
  obtain ⟨l1, l2, l3, rfl⟩ := h
  exact ⟨l1, l2, l3 ++ k, by simp⟩

theorem IsBefore.append_left {k : List Str} {a b : Str} (l : List Str)
    (h : IsBefore k a b) : IsBefore (l ++ k) a b := by
  obtain ⟨l1, l2, l3, rfl⟩ := h
  exact ⟨l ++ l1, l2, l3, by simp⟩

theorem isBefore_of_mem_mem {l k : List Str} {a b : Str}
    (ha : a ∈ l) (hb : b ∈ k) : IsBefore (l ++ k) a b := by
  obtain ⟨s, t, rfl⟩ := List.append_of_mem ha
  obtain ⟨u, v, rfl⟩ := List.append_of_mem hb
  exact ⟨s, t ++ u, v, by simp⟩

theorem IsBefore.filter {l : List Str} {a b : Str} (p : Str → Bool)
    (h : IsBefore l a b) (hpa : p a = true) (hpb : p b = true) :
    IsBefore (l.filter p) a b := by
  obtain ⟨l1, l2, l3, rfl⟩ := h
  refine ⟨l1.filter p, l2.filter p, l3.filter p, ?_⟩
  simp [List.filter_append, List.filter_cons, hpa, hpb]

theorem IsBefore.mem_left {l : List Str} {a b : Str} (h : IsBefore l a b) : a ∈ l := by
  obtain ⟨l1, l2, l3, rfl⟩ := h
  simp

theorem IsBefore.mem_right {l : List Str} {a b : Str} (h : IsBefore l a b) : b ∈ l := by
  obtain ⟨l1, l2, l3, rfl⟩ := h
  simp

/-! ## Helper lemmas: registry lookup -/

theorem lookupFrag_mem {reg : List GPUSource} {n : Str} {g : GPUSource}
    (h : lookupFrag reg n = some g) : g ∈ reg :=
  List.mem_of_find?_eq_some h

theorem lookupFrag_name {reg : List GPUSource} {n : Str} {g : GPUSource}
    (h : lookupFrag reg n = some g) : g.filename = n := by
  have := List.find?_some h
  simpa using this

theorem lookupFrag_self {reg : List GPUSource} (hnod : RegNodup reg)
    {f : GPUSource} (hf : f ∈ reg) : lookupFrag reg f.filename = some f := by
  have hex : (lookupFrag reg f.filename).isSome := by
    rw [lookupFrag, List.find?_isSome]
    exact ⟨f, hf, by simp⟩
  obtain ⟨g, hg⟩ := Option.isSome_iff_exists.mp hex
  have hgm := lookupFrag_mem hg
  have hgn := lookupFrag_name hg
  have : g = f := by
    have := List.inj_on_of_nodup_map hnod
    exact this hgm hf hgn
  rw [hg, this]

/-! ## Unfolding equations for the resolver -/

theorem id_zero (reg : List GPUSource) (st : RSt) (f : GPUSource) :
    init_dependencies reg 0 st f = none := rfl

theorem id_succ (reg : List GPUSource) (fuel : Nat) (st : RSt) (f : GPUSource) :
    init_dependencies reg (fuel+1) st f =
      if st.dependencies_init f.filename then some (st, 0)
      else
        init_dependencies_list reg (fun st2 g => init_dependencies reg fuel st2 g)
          f.filename (setFlag st f.filename) (scanRequires f.source) := by
  rfl

theorem idl_nil (reg : List GPUSource) (resolve : RSt → GPUSource → Option (RSt × Nat))
    (self : Str) (st : RSt) :
    init_dependencies_list reg resolve self st [] = some (st, 0) := rfl

theorem idl_malformed (reg : List GPUSource) (resolve : RSt → GPUSource → Option (RSt × Nat))
    (self : Str) (st : RSt) (ofs : Nat) (rest : List ReqDir) :
    init_dependencies_list reg resolve self st (ReqDir.malformed ofs :: rest) =
      some (logErr st (ErrEv.malformedRequire self ofs), 1) := rfl

theorem idl_good (reg : List GPUSource) (resolve : RSt → GPUSource → Option (RSt × Nat))
    (self : Str) (st : RSt) (name : Str) (ofs : Nat) (rest : List ReqDir) :
    init_dependencies_list reg resolve self st (ReqDir.good name ofs :: rest) =
      match lookupFrag reg name with
      | none => some (logErr st (ErrEv.missingDependency self ofs), 1)
      | some dep =>
        match resolve st dep with
        | none => none
        | some (st2, r) =>
          if r = 0 then
            init_dependencies_list reg resolve self
              (appendDeps st2 self (st2.dependencies dep.filename ++ [dep.filename])) rest
          else some (st2, 1) := rfl

theorem idl_good_none {reg : List GPUSource} {resolve : RSt → GPUSource → Option (RSt × Nat)}
    {self : Str} {st : RSt} {name : Str} {ofs : Nat} {rest : List ReqDir}
    (hl : lookupFrag reg name = none) :
    init_dependencies_list reg resolve self st (ReqDir.good name ofs :: rest) =
      some (logErr st (ErrEv.missingDependency self ofs), 1) := by
  rw [idl_good, hl]

theorem idl_good_fuelout {reg : List GPUSource} {resolve : RSt → GPUSource → Option (RSt × Nat)}
    {self : Str} {st : RSt} {name : Str} {ofs : Nat} {rest : List ReqDir} {dep : GPUSource}
    (hl : lookupFrag reg name = some dep) (hr : resolve st dep = none) :
    init_dependencies_list reg resolve self st (ReqDir.good name ofs :: rest) = none := by
  rw [idl_good, hl]
  simp only [hr]

theorem idl_good_ok {reg : List GPUSource} {resolve : RSt → GPUSource → Option (RSt × Nat)}
    {self : Str} {st : RSt} {name : Str} {ofs : Nat} {rest : List ReqDir} {dep : GPUSource}
    {st2 : RSt} (hl : lookupFrag reg name = some dep) (hr : resolve st dep = some (st2, 0)) :
    init_dependencies_list reg resolve self st (ReqDir.good name ofs :: rest) =
      init_dependencies_list reg resolve self
        (appendDeps st2 self (st2.dependencies dep.filename ++ [dep.filename])) rest := by
  rw [idl_good, hl]
  simp only [hr, if_pos trivial, if_true]

theorem idl_good_fail {reg : List GPUSource} {resolve : RSt → GPUSource → Option (RSt × Nat)}
    {self : Str} {st : RSt} {name : Str} {ofs : Nat} {rest : List ReqDir} {dep : GPUSource}
    {st2 : RSt} {r2 : Nat} (hl : lookupFrag reg name = some dep)
    (hr : resolve st dep = some (st2, r2)) (h0 : r2 ≠ 0) :
    init_dependencies_list reg resolve self st (ReqDir.good name ofs :: rest) =
      some (st2, 1) := by
  rw [idl_good, hl]
  simp only [hr, if_neg h0]

theorem idl_basic (reg : List GPUSource) (resolve : RSt → GPUSource → Option (RSt × Nat))
    (self : Str)
    (HR : ∀ st g st2 r, resolve st g = some (st2, r) → BasicEvo st st2) :
    ∀ dirs st st' r, init_dependencies_list reg resolve self st dirs = some (st', r) →
      (∀ n, st.dependencies_init n = true → st'.dependencies_init n = true) ∧
      (∀ n, st.dependencies_init n = true → n ≠ self → st'.dependencies n = st.dependencies n) ∧
      (∀ n, (st.dependencies n).Nodup → (st'.dependencies n).Nodup) := by
  intro dirs
  induction dirs with
  | nil =>
    intro st st' r h
    rw [idl_nil] at h
    cases h
    exact ⟨fun n h => h, fun n _ _ => rfl, fun n h => h⟩
  | cons d rest ih =>
    intro st st' r h
    match d with
    | ReqDir.malformed ofs =>
      rw [idl_malformed] at h
      cases h
      exact ⟨fun n h => h, fun n _ _ => rfl, fun n h => h⟩
    | ReqDir.good name ofs =>
      cases hl : lookupFrag reg name with
      | none =>
        rw [idl_good_none hl] at h
        cases h
        exact ⟨fun n h => h, fun n _ _ => rfl, fun n h => h⟩
      | some dep =>
        cases hr : resolve st dep with
        | none => rw [idl_good_fuelout hl hr] at h; cases h
        | some p =>
          obtain ⟨st2, r2⟩ := p
          have hb := HR st dep st2 r2 hr
          by_cases hr0 : r2 = 0
          · subst hr0
            rw [idl_good_ok hl hr] at h
            set st3 := appendDeps st2 self (st2.dependencies dep.filename ++ [dep.filename]) with hst3
            obtain ⟨ihf, ihd, ihn⟩ := ih st3 st' r h
            refine ⟨?_, ?_, ?_⟩
            · intro n hn
              exact ihf n (by
                rw [hst3, appendDeps_flag]
                exact hb.flagLe n hn)
            · intro n hn hns
              have h2 : st2.dependencies n = st.dependencies n := hb.frame n hn
              have h3 : st3.dependencies n = st2.dependencies n := appendDeps_deps_ne _ _ _ hns
              have h4 : st'.dependencies n = st3.dependencies n := by
                apply ihd n _ hns
                rw [hst3, appendDeps_flag]
                exact hb.flagLe n hn
              rw [h4, h3, h2]
            · intro n hn
              apply ihn
              by_cases hns : n = self
              · subst hns
                rw [hst3, appendDeps_deps_self]
                exact appendND_nodup (hb.nodup _ hn)
              · rw [hst3, appendDeps_deps_ne _ _ _ hns]
                exact hb.nodup n hn
          · rw [idl_good_fail hl hr hr0] at h
            cases h
            exact ⟨hb.flagLe, fun n hn _ => hb.frame n hn, hb.nodup⟩

theorem id_basic (reg : List GPUSource) :
    ∀ fuel st f st' r, init_dependencies reg fuel st f = some (st', r) →
      BasicEvo st st' ∧ st'.dependencies_init f.filename = true := by
  intro fuel
  induction fuel with
  | zero => intro st f st' r h; rw [id_zero] at h; cases h
  | succ fuel ih =>
    intro st f st' r h
    rw [id_succ] at h
    by_cases hflag : st.dependencies_init f.filename
    · rw [if_pos hflag] at h
      cases h
      exact ⟨⟨fun n h => h, fun n _ => rfl, fun n h => h⟩, hflag⟩
    · rw [if_neg hflag] at h
      have hl := idl_basic reg _ f.filename
        (fun st g st2 r h => (ih st g st2 r h).1) _ _ _ _ h
      obtain ⟨hf, hd, hn⟩ := hl
      refine ⟨⟨?_, ?_, ?_⟩, ?_⟩
      · intro n hn2
        exact hf n (setFlag_flag_mono st f.filename n hn2)
      · intro n hn2
        have hne : n ≠ f.filename := fun he => hflag (he ▸ hn2)
        have := hd n (setFlag_flag_mono st f.filename n hn2) hne
        rwa [setFlag_deps] at this
      · intro n hn2
        apply hn
        rwa [setFlag_deps]
      · exact hf f.filename (setFlag_flag_self st f.filename)

/-- Result codes are 0 or 1, as in the source (`none` is only the
    out-of-fuel artefact of the embedding). -/
theorem idl_code01 (reg : List GPUSource) (resolve : RSt → GPUSource → Option (RSt × Nat))
    (self : Str) :
    ∀ dirs st st' r, init_dependencies_list reg resolve self st dirs = some (st', r) →
      r = 0 ∨ r = 1 := by
  intro dirs
  induction dirs with
  | nil => intro st st' r h; rw [idl_nil] at h; cases h; exact Or.inl rfl
  | cons d rest ih =>
    intro st st' r h
    match d with
    | ReqDir.malformed ofs =>
      rw [idl_malformed] at h; cases h; exact Or.inr rfl
    | ReqDir.good name ofs =>
      cases hl : lookupFrag reg name with
      | none => rw [idl_good_none hl] at h; cases h; exact Or.inr rfl
      | some dep =>
        cases hr : resolve st dep with
        | none => rw [idl_good_fuelout hl hr] at h; cases h
        | some p =>
          obtain ⟨st2, r2⟩ := p
          by_cases hr0 : r2 = 0
          · subst hr0
            rw [idl_good_ok hl hr] at h
            exact ih _ _ _ h
          · rw [idl_good_fail hl hr hr0] at h; cases h; exact Or.inr rfl

theorem id_code01 (reg : List GPUSource) (fuel : Nat) (st : RSt) (f : GPUSource)
    (st' : RSt) (r : Nat) (h : init_dependencies reg fuel st f = some (st', r)) :
    r = 0 ∨ r = 1 := by
  match fuel with
  | 0 => rw [id_zero] at h; cases h
  | fuel+1 =>
    rw [id_succ] at h
    by_cases hflag : st.dependencies_init f.filename
    · rw [if_pos hflag] at h; cases h; exact Or.inl rfl
    · rw [if_neg hflag] at h; exact idl_code01 reg _ f.filename _ _ _ _ h

/-- A success (result 0) means every directive in the list was
    well-formed and named a registered fragment. -/
theorem idl_okdirs (reg : List GPUSource) (resolve : RSt → GPUSource → Option (RSt × Nat))
    (self : Str) :
    ∀ dirs st st', init_dependencies_list reg resolve self st dirs = some (st', 0) →
      ∀ d ∈ dirs, dirOK reg d := by
  intro dirs
  induction dirs with
  | nil => intro st st' _ d hd; cases hd
  | cons d rest ih =>
    intro st st' h d' hd'
    match d with
    | ReqDir.malformed ofs => rw [idl_malformed] at h; cases h
    | ReqDir.good name ofs =>
      cases hl : lookupFrag reg name with
      | none => rw [idl_good_none hl] at h; cases h
      | some dep =>
        cases hr : resolve st dep with
        | none => rw [idl_good_fuelout hl hr] at h; cases h
        | some p =>
          obtain ⟨st2, r2⟩ := p
          by_cases hr0 : r2 = 0
          · subst hr0
            rw [idl_good_ok hl hr] at h
            rcases List.mem_cons.mp hd' with rfl | hmem
            · show (lookupFrag reg name).isSome = true
              rw [hl]; rfl
            · exact ih _ _ h d' hmem
          · rw [idl_good_fail hl hr hr0] at h; cases h

/-! ## Fuel sufficiency: termination of `init_dependencies`

Setting `dependencies_init` before scanning bounds the recursion: every
nested call starts in a state with strictly fewer unresolved registry
fragments, so `unresolvedCount + 1` fuel is always enough, cycles
included. -/

theorem filter_length_le {α : Type} (p q : α → Bool) (l : List α)
    (himp : ∀ x ∈ l, q x = true → p x = true) :
    (l.filter q).length ≤ (l.filter p).length := by
  induction l with
  | nil => simp
  | cons a l ih =>
    have ih' := ih (fun x hx => himp x (List.mem_cons_of_mem _ hx))
    by_cases hq : q a = true
    · have hp := himp a (List.mem_cons_self _ _) hq
      simp [List.filter_cons, hq, hp]
      exact ih'
    · rw [List.filter_cons, if_neg (by simpa using hq)]
      by_cases hp : p a = true
      · rw [List.filter_cons, if_pos (by simpa using hp)]
        exact Nat.le_succ_of_le ih'
      · rw [List.filter_cons, if_neg (by simpa using hp)]
        exact ih'

theorem filter_length_lt {α : Type} (p q : α → Bool) (l : List α)
    (himp : ∀ x ∈ l, q x = true → p x = true)
    (x : α) (hx : x ∈ l) (hpx : p x = true) (hqx : q x = false) :
    (l.filter q).length < (l.filter p).length := by
  induction l with
  | nil => cases hx
  | cons a l ih =>
    have himp' : ∀ y ∈ l, q y = true → p y = true :=
      fun y hy => himp y (List.mem_cons_of_mem _ hy)
    rw [List.filter_cons, List.filter_cons]
    rcases List.mem_cons.mp hx with rfl | hxl
    · rw [if_neg (by simp [hqx]), if_pos (by simpa using hpx)]
      simpa using Nat.lt_succ_of_le (filter_length_le p q l himp')
    · by_cases hq : q a = true
      · have hp := himp a (List.mem_cons_self _ _) hq
        rw [if_pos (by simpa using hq), if_pos (by simpa using hp)]
        simpa using ih himp' hxl
      · rw [if_neg (by simpa using hq)]
        by_cases hp : p a = true
        · rw [if_pos (by simpa using hp)]
          exact Nat.lt_succ_of_lt (ih himp' hxl)
        · rw [if_neg (by simpa using hp)]
          exact ih himp' hxl

theorem count_le_of_flagLe {reg : List GPUSource} {st st' : RSt}
    (h : ∀ n, st.dependencies_init n = true → st'.dependencies_init n = true) :
    unresolvedCount reg st' ≤ unresolvedCount reg st := by
  apply filter_length_le
  intro g _ hq
  by_contra hc
  have : st.dependencies_init g.filename = true := by
    cases hh : st.dependencies_init g.filename
    · exact absurd (by simp [hh]) hc
    · rfl
  have := h _ this
  simp [this] at hq

theorem count_appendDeps (reg : List GPUSource) (st : RSt) (self : Str) (xs : List Str) :
    unresolvedCount reg (appendDeps st self xs) = unresolvedCount reg st := rfl

theorem count_setFlag_lt {reg : List GPUSource} {st : RSt} {f : GPUSource}
    (hf : f ∈ reg) (hflag : st.dependencies_init f.filename = false) :
    unresolvedCount reg (setFlag st f.filename) < unresolvedCount reg st := by
  apply filter_length_lt _ _ _ _ f hf
  · simp [hflag]
  · simp [setFlag_flag_self]
  · intro g _ hq
    cases hh : st.dependencies_init g.filename
    · simp [hh]
    · exfalso
      have := setFlag_flag_mono st f.filename g.filename hh
      simp [this] at hq

theorem idl_total (reg : List GPUSource) (resolve : RSt → GPUSource → Option (RSt × Nat))
    (self : Str) (fuel0 : Nat)
    (HRT : ∀ st g, g ∈ reg → unresolvedCount reg st < fuel0 → (resolve st g).isSome = true)
    (HRB : ∀ st g st2 r, resolve st g = some (st2, r) → BasicEvo st st2) :
    ∀ dirs st, unresolvedCount reg st < fuel0 →
      (init_dependencies_list reg resolve self st dirs).isSome = true := by
  intro dirs
  induction dirs with
  | nil => intro st _; rw [idl_nil]; rfl
  | cons d rest ih =>
    intro st hcount
    match d with
    | ReqDir.malformed ofs => rw [idl_malformed]; rfl
    | ReqDir.good name ofs =>
      cases hl : lookupFrag reg name with
      | none => rw [idl_good_none hl]; rfl
      | some dep =>
        have hmem := lookupFrag_mem hl
        have hsome := HRT st dep hmem hcount
        obtain ⟨p, hr⟩ := Option.isSome_iff_exists.mp hsome
        obtain ⟨st2, r2⟩ := p
        by_cases hr0 : r2 = 0
        · subst hr0
          rw [idl_good_ok hl hr]
          apply ih
          rw [count_appendDeps]
          calc unresolvedCount reg st2 ≤ unresolvedCount reg st :=
                count_le_of_flagLe (HRB st dep st2 0 hr).flagLe
            _ < fuel0 := hcount
        · rw [idl_good_fail hl hr hr0]; rfl

theorem id_total (reg : List GPUSource) :
    ∀ fuel st f, f ∈ reg → unresolvedCount reg st < fuel →
      (init_dependencies reg fuel st f).isSome = true := by
  intro fuel
  induction fuel with
  | zero => intro st f _ h; cases h
  | succ fuel ih =>
    intro st f hf hcount
    rw [id_succ]
    by_cases hflag : st.dependencies_init f.filename
    · rw [if_pos hflag]; rfl
    · rw [if_neg hflag]
      apply idl_total reg _ f.filename fuel
        (fun st g hg hc => ih st g hg hc)
        (fun st g st2 r h => (id_basic reg fuel st g st2 r h).1)
      have h1 : unresolvedCount reg (setFlag st f.filename) < unresolvedCount reg st :=
        count_setFlag_lt hf (by simpa using hflag)
      omega

theorem idl_success (reg : List GPUSource) (resolve : RSt → GPUSource → Option (RSt × Nat))
    (self : Str) (fuel0 : Nat) (P : GPUSource → Prop)
    (HRS : ∀ st g, g ∈ reg → P g → unresolvedCount reg st < fuel0 →
      ∃ st2, resolve st g = some (st2, 0))
    (HRB : ∀ st g st2 r, resolve st g = some (st2, r) → BasicEvo st st2) :
    ∀ dirs st,
      (∀ d ∈ dirs, ∃ m ofs dep, d = ReqDir.good m ofs ∧ lookupFrag reg m = some dep ∧ P dep) →
      unresolvedCount reg st < fuel0 →
      ∃ st', init_dependencies_list reg resolve self st dirs = some (st', 0) := by
  intro dirs
  induction dirs with
  | nil => intro st _ _; exact ⟨st, idl_nil _ _ _ _⟩
  | cons d rest ih =>
    intro st hdirs hcount
    obtain ⟨m, ofs, dep, rfl, hl, hP⟩ := hdirs d (List.mem_cons_self _ _)
    obtain ⟨st2, hr⟩ := HRS st dep (lookupFrag_mem hl) hP hcount
    rw [idl_good_ok hl hr]
    refine ih _ (fun d hd => hdirs d (List.mem_cons_of_mem _ hd)) ?_
    rw [count_appendDeps]
    calc unresolvedCount reg st2 ≤ unresolvedCount reg st :=
          count_le_of_flagLe (HRB st dep st2 0 hr).flagLe
      _ < fuel0 := hcount

theorem id_success (reg : List GPUSource) (hreg : RegNodup reg) :
    ∀ fuel st f, f ∈ reg →
      (∀ n, Relation.ReflTransGen (Step reg) f.filename n → WellReqN reg n) →
      unresolvedCount reg st < fuel →
      ∃ st', init_dependencies reg fuel st f = some (st', 0) := by
  intro fuel
  induction fuel with
  | zero => intro st f _ _ h; cases h
  | succ fuel ih =>
    intro st f hf hreach hcount
    rw [id_succ]
    by_cases hflag : st.dependencies_init f.filename
    · rw [if_pos hflag]; exact ⟨st, rfl⟩
    · rw [if_neg hflag]
      have hself : dirsOfName reg f.filename = scanRequires f.source := by
        rw [dirsOfName, lookupFrag_self hreg hf]
      apply idl_success reg _ f.filename fuel
        (fun g => ∀ n, Relation.ReflTransGen (Step reg) g.filename n → WellReqN reg n)
        (fun st g hg hP hc => ih st g hg hP hc)
        (fun st g st2 r h => (id_basic reg fuel st g st2 r h).1)
      · intro d hd
        have hdOK : dirOK reg d := by
          have := (hreach f.filename Relation.ReflTransGen.refl).2
          rw [hself] at this
          exact this d hd
        match d with
        | ReqDir.malformed ofs => cases hdOK
        | ReqDir.good m ofs =>
          have hsome : (lookupFrag reg m).isSome = true := hdOK
          obtain ⟨dep, hl⟩ := Option.isSome_iff_exists.mp hsome
          refine ⟨m, ofs, dep, rfl, hl, ?_⟩
          intro n hn
          apply hreach
          apply Relation.ReflTransGen.head _ hn
          refine ⟨ofs, ?_⟩
          rw [hself, lookupFrag_name hl]
          exact hd
      · have h1 : unresolvedCount reg (setFlag st f.filename) < unresolvedCount reg st :=
          count_setFlag_lt hf (by simpa using hflag)
        omega

theorem Closed_mono {reg : List GPUSource} {st st' : RSt} {n : Str}
    (h : ∀ k, st.dependencies_init k = true → st'.dependencies_init k = true)
    (hc : Closed reg st n) : Closed reg st' n := by
  intro d hd
  obtain ⟨h1, h2⟩ := hc d hd
  exact ⟨h1, fun m ofs he => h m (h2 m ofs he)⟩

theorem idl_closed (reg : List GPUSource) (resolve : RSt → GPUSource → Option (RSt × Nat))
    (self : Str) (A : List Str)
    (HR : ∀ st g st2, g ∈ reg → resolve st g = some (st2, 0) →
      (∀ n, st.dependencies_init n = true → n ∈ self :: A ∨ Closed reg st n) →
      st2.dependencies_init g.filename = true ∧
      (∀ n, st2.dependencies_init n = true → n ∈ self :: A ∨ Closed reg st2 n))
    (HRB : ∀ st g st2 r, resolve st g = some (st2, r) → BasicEvo st st2) :
    ∀ dirs st st', init_dependencies_list reg resolve self st dirs = some (st', 0) →
      (∀ n, st.dependencies_init n = true → n ∈ self :: A ∨ Closed reg st n) →
      (∀ d ∈ dirs, ∀ m ofs, d = ReqDir.good m ofs → st'.dependencies_init m = true) ∧
      (∀ n, st'.dependencies_init n = true → n ∈ self :: A ∨ Closed reg st' n) := by
  intro dirs
  induction dirs with
  | nil =>
    intro st st' h hinv
    rw [idl_nil] at h
    cases h
    exact ⟨fun d hd => absurd hd (List.not_mem_nil d), hinv⟩
  | cons d rest ih =>
    intro st st' h hinv
    match d with
    | ReqDir.malformed ofs =>
      rw [idl_malformed] at h
      simp at h
    | ReqDir.good name ofs =>
      cases hl : lookupFrag reg name with
      | none => rw [idl_good_none hl] at h; simp at h
      | some dep =>
        cases hr : resolve st dep with
        | none => rw [idl_good_fuelout hl hr] at h; cases h
        | some p =>
          obtain ⟨st2, r2⟩ := p
          by_cases hr0 : r2 = 0
          · subst hr0
            rw [idl_good_ok hl hr] at h
            obtain ⟨hflag2, hinv2⟩ := HR st dep st2 (lookupFrag_mem hl) hr hinv
            -- `appendDeps` leaves the flags untouched, and `Closed` only
            -- reads flags, so the invariant transports definitionally
            have hinv3 : ∀ n, (appendDeps st2 self
                  (st2.dependencies dep.filename ++ [dep.filename])).dependencies_init n = true →
                n ∈ self :: A ∨ Closed reg
                  (appendDeps st2 self (st2.dependencies dep.filename ++ [dep.filename])) n :=
              hinv2
            obtain ⟨hrest, hinvfin⟩ := ih _ _ h hinv3
            have hbasicrest := idl_basic reg resolve self HRB rest _ _ _ h
            refine ⟨?_, hinvfin⟩
            intro d' hd' m ofs' he
            rcases List.mem_cons.mp hd' with rfl | hmem
            · injection he with h1 h2
              subst h1
              have hfl : st2.dependencies_init name = true := by
                rw [← lookupFrag_name hl]
                exact hflag2
              exact hbasicrest.1 name hfl
            · exact hrest d' hmem m ofs' he
          · rw [idl_good_fail hl hr hr0] at h
            simp at h

theorem id_closed (reg : List GPUSource) (hreg : RegNodup reg) :
    ∀ (fuel : Nat) (st : RSt) (f : GPUSource) (st' : RSt) (A : List Str), f ∈ reg →
      init_dependencies reg fuel st f = some (st', 0) →
      (∀ n, st.dependencies_init n = true → n ∈ A ∨ Closed reg st n) →
      st'.dependencies_init f.filename = true ∧
      (f.filename ∈ A ∨ Closed reg st' f.filename) ∧
      (∀ n, st'.dependencies_init n = true → n ∈ A ∨ Closed reg st' n) := by
  intro fuel
  induction fuel with
  | zero => intro st f st' A _ h; rw [id_zero] at h; cases h
  | succ fuel ih =>
    intro st f st' A hf h hinv
    rw [id_succ] at h
    by_cases hflag : st.dependencies_init f.filename
    · rw [if_pos hflag] at h
      cases h
      exact ⟨hflag, hinv _ hflag, hinv⟩
    · rw [if_neg hflag] at h
      have hinv1 : ∀ n, (setFlag st f.filename).dependencies_init n = true →
          n ∈ f.filename :: A ∨ Closed reg (setFlag st f.filename) n := by
        intro n hn
        rcases setFlag_flag_of st f.filename n hn with rfl | hn0
        · exact Or.inl (List.mem_cons_self _ _)
        · rcases hinv n hn0 with hA | hC
          · exact Or.inl (List.mem_cons_of_mem _ hA)
          · exact Or.inr (Closed_mono (fun k => setFlag_flag_mono st f.filename k) hC)
      have HRgo : ∀ st0 g st2, g ∈ reg → init_dependencies reg fuel st0 g = some (st2, 0) →
          (∀ n, st0.dependencies_init n = true → n ∈ f.filename :: A ∨ Closed reg st0 n) →
          st2.dependencies_init g.filename = true ∧
          (∀ n, st2.dependencies_init n = true → n ∈ f.filename :: A ∨ Closed reg st2 n) := by
        intro st0 g st2 hg hres hin
        obtain ⟨h1, _, h3⟩ := ih st0 g st2 (f.filename :: A) hg hres hin
        exact ⟨h1, h3⟩
      obtain ⟨hdirflags, hinvfin⟩ := idl_closed reg _ f.filename A HRgo
        (fun st0 g st2 r hres => (id_basic reg fuel st0 g st2 r hres).1)
        _ _ _ h hinv1
      have hok := idl_okdirs reg _ f.filename _ _ _ h
      have hself : dirsOfName reg f.filename = scanRequires f.source := by
        rw [dirsOfName, lookupFrag_self hreg hf]
      have hclosed : Closed reg st' f.filename := by
        intro d hd
        rw [hself] at hd
        exact ⟨hok d hd, fun m ofs he => hdirflags d hd m ofs he⟩
      have hflagfin : st'.dependencies_init f.filename = true := by
        have := idl_basic reg _ f.filename
          (fun st g st2 r hres => (id_basic reg fuel st g st2 r hres).1) _ _ _ _ h
        exact this.1 f.filename (setFlag_flag_self st f.filename)
      refine ⟨hflagfin, Or.inr hclosed, ?_⟩
      intro n hn
      rcases hinvfin n hn with hmem | hC
      · rcases List.mem_cons.mp hmem with rfl | hA
        · exact Or.inr hclosed
        · exact Or.inl hA
      · exact Or.inr hC

theorem entryOK_mono {rank : Str → Nat} {st st' : RSt} {n : Str}
    (hflag : ∀ k, st.dependencies_init k = true → st'.dependencies_init k = true)
    (hframe : ∀ k, st.dependencies_init k = true → st'.dependencies k = st.dependencies k)
    (hn : st.dependencies_init n = true)
    (h : entryOK rank st n) : entryOK rank st' n := by
  have hdn : st'.dependencies n = st.dependencies n := hframe n hn
  constructor
  · rw [hdn]; exact h.1
  · intro d hd
    rw [hdn] at hd
    obtain ⟨h1, h2, h3, h4⟩ := h.2 d hd
    refine ⟨hflag d h1, h2, ?_, ?_⟩
    · rw [hdn, hframe d h1]; exact h3
    · rw [hdn, hframe d h1]; exact h4

theorem entryOK_appendDeps {rank : Str → Nat} {st : RSt} {self : Str} {xs : List Str} {n : Str}
    (hfresh : ∀ k, self ∉ st.dependencies k) (hns : n ≠ self)
    (h : entryOK rank st n) : entryOK rank (appendDeps st self xs) n := by
  have hdn : (appendDeps st self xs).dependencies n = st.dependencies n :=
    appendDeps_deps_ne _ _ _ hns
  constructor
  · rw [hdn]; exact h.1
  · intro d hd
    rw [hdn] at hd
    obtain ⟨h1, h2, h3, h4⟩ := h.2 d hd
    have hds : d ≠ self := fun he => hfresh n (he ▸ hd)
    refine ⟨h1, h2, ?_, ?_⟩
    · rw [hdn, appendDeps_deps_ne _ _ _ hds]; exact h3
    · rw [hdn, appendDeps_deps_ne _ _ _ hds]; exact h4

/-- The effect of one successful directive: appending the (settled)
    dependency's list followed by the dependency itself preserves the
    whole invariant bundle for `self`. -/
theorem append_step (rank : Str → Nat) (st2 : RSt) (self mname : Str) (A : List Str)
    (HInv : Inv rank st2)
    (HOpen : OpenInv rank st2 (self :: A))
    (HL : entryOK rank st2 self)
    (HM : entryOK rank st2 mname)
    (HmFlag : st2.dependencies_init mname = true)
    (Hmrank : rank mname < rank self)
    (HselfFlag : st2.dependencies_init self = true)
    (Hfresh : ∀ k, self ∉ st2.dependencies k) :
    Inv rank (appendDeps st2 self (st2.dependencies mname ++ [mname])) ∧
    OpenInv rank (appendDeps st2 self (st2.dependencies mname ++ [mname])) (self :: A) ∧
    entryOK rank (appendDeps st2 self (st2.dependencies mname ++ [mname])) self ∧
    (∀ k, self ∉ (appendDeps st2 self (st2.dependencies mname ++ [mname])).dependencies k) ∧
    (∀ n x, x ∈ (appendDeps st2 self (st2.dependencies mname ++ [mname])).dependencies n →
      x ∈ st2.dependencies n ∨ rank x < rank self) := by
  set M := st2.dependencies mname with hMdef
  set L := st2.dependencies self with hLdef
  set st3 := appendDeps st2 self (M ++ [mname]) with hst3
  have hfl3 : st3.dependencies_init = st2.dependencies_init := rfl
  have hd3self : st3.dependencies self = appendND L (M ++ [mname]) :=
    appendDeps_deps_self _ _ _
  have hd3ne : ∀ {k}, k ≠ self → st3.dependencies k = st2.dependencies k :=
    fun hk => appendDeps_deps_ne _ _ _ hk
  -- rank of every element of M is below mname, hence below self
  have hMrank : ∀ x ∈ M, rank x < rank mname := fun x hx => (HInv.2 mname x hx).2
  have hMflag : ∀ x ∈ M, st2.dependencies_init x = true := fun x hx => (HInv.2 mname x hx).1
  have hmM : mname ∉ M := fun hm => Nat.lt_irrefl _ (hMrank mname hm)
  have hMm_nodup : (M ++ [mname]).Nodup := by
    rw [List.nodup_append]
    exact ⟨HM.1, List.nodup_singleton _, by
      intro x hx hx1
      rcases List.mem_singleton.mp hx1 with rfl
      exact hmM hx⟩
  have hL' : appendND L (M ++ [mname]) =
      L ++ (M ++ [mname]).filter (fun x => !(decide (x ∈ L))) := appendND_eq_filter hMm_nodup
  set K := (M ++ [mname]).filter (fun x => !(decide (x ∈ L))) with hKdef
  have hKsub : ∀ x ∈ K, (x ∈ M ∨ x = mname) ∧ x ∉ L := by
    intro x hx
    have h1 := List.mem_of_mem_filter hx
    have h2 := List.of_mem_filter hx
    refine ⟨?_, by simpa using h2⟩
    rcases List.mem_append.mp h1 with h | h
    · exact Or.inl h
    · exact Or.inr (List.mem_singleton.mp h)
  have hMmK : ∀ x, (x ∈ M ∨ x = mname) → x ∈ L ++ K := by
    intro x hx
    by_cases hxL : x ∈ L
    · exact List.mem_append.mpr (Or.inl hxL)
    · refine List.mem_append.mpr (Or.inr ?_)
      rw [hKdef]
      refine List.mem_filter.mpr ⟨?_, by simpa using hxL⟩
      rcases hx with h | rfl
      · exact List.mem_append.mpr (Or.inl h)
      · exact List.mem_append.mpr (Or.inr (List.mem_singleton.mpr rfl))
  have hself_notL : self ∉ L := Hfresh self
  have hLrank : ∀ x ∈ L, rank x < rank self := fun x hx => (HInv.2 self x hx).2
  -- rank bound and flag for every element of the new list
  have hnewfacts : ∀ x ∈ L ++ K, st2.dependencies_init x = true ∧ rank x < rank self := by
    intro x hx
    rcases List.mem_append.mp hx with h | h
    · exact HInv.2 self x h
    · rcases (hKsub x h).1 with hM | rfl
      · exact ⟨hMflag x hM, Nat.lt_trans (hMrank x hM) Hmrank⟩
      · exact ⟨HmFlag, Hmrank⟩
  have hself_not_new : self ∉ L ++ K := by
    intro hx
    exact Nat.lt_irrefl _ (hnewfacts self hx).2
  -- the new list for self
  have hd3self' : st3.dependencies self = L ++ K := by rw [hd3self, hL']
  -- entryOK for self in st3
  have hentry : entryOK rank st3 self := by
    constructor
    · rw [hd3self']
      rw [List.nodup_append]
      refine ⟨HL.1, List.Nodup.filter _ hMm_nodup, ?_⟩
      intro x hx hxK
      exact (hKsub x hxK).2 hx
    · intro d hd
      rw [hd3self'] at hd
      have hdflag := (hnewfacts d hd).1
      have hdrank := (hnewfacts d hd).2
      have hdne : d ≠ self := fun he => Nat.lt_irrefl _ (he ▸ hdrank)
      have hd3d : st3.dependencies d = st2.dependencies d := hd3ne hdne
      rcases List.mem_append.mp hd with hdL | hdK
      · -- an entry that was already present keeps its properties
        obtain ⟨_, _, hsub, hord⟩ := HL.2 d hdL
        refine ⟨hdflag, hdrank, ?_, ?_⟩
        · rw [hd3d, hd3self']
          exact fun x hx => List.mem_append.mpr (Or.inl (hsub hx))
        · intro e he
          rw [hd3d] at he
          rw [hd3self']
          exact (hord e he).append_right K
      · rcases (hKsub d hdK).1 with hdM | hdm
        · -- a newly appended entry coming from the dependency's list
          obtain ⟨_, _, hsub, hord⟩ := HM.2 d hdM
          refine ⟨hdflag, hdrank, ?_, ?_⟩
          · rw [hd3d, hd3self']
            intro x hx
            exact hMmK x (Or.inl (hsub hx))
          · intro e he
            rw [hd3d] at he
            rw [hd3self']
            by_cases heL : e ∈ L
            · exact isBefore_of_mem_mem heL hdK
            · have h1 : IsBefore (M ++ [mname]) e d := (hord e he).append_right _
              have h2 : IsBefore K e d := by
                rw [hKdef]
                exact h1.filter (fun x => !(decide (x ∈ L)))
                  (by simpa using heL) (by simpa using (hKsub d hdK).2)
              exact h2.append_left L
        · -- the dependency itself, appended last
          subst hdm
          refine ⟨hdflag, hdrank, ?_, ?_⟩
          · rw [hd3d, hd3self', ← hMdef]
            intro x hx
            exact hMmK x (Or.inl hx)
          · intro e he
            rw [hd3d, ← hMdef] at he
            rw [hd3self']
            by_cases hmL : d ∈ L
            · obtain ⟨_, _, hsub, hord⟩ := HL.2 d hmL
              exact (hord e (by rw [← hMdef]; exact he)).append_right K
            · by_cases heL : e ∈ L
              · exact isBefore_of_mem_mem heL hdK
              · have h1 : IsBefore (M ++ [d]) e d :=
                  isBefore_of_mem_mem he (List.mem_singleton.mpr rfl)
                have h2 : IsBefore K e d := by
                  rw [hKdef]
                  exact h1.filter (fun x => !(decide (x ∈ L)))
                    (by simpa using heL) (by simpa using hmL)
                exact h2.append_left L
  refine ⟨?_, ?_, hentry, ?_, ?_⟩
  · -- Inv
    constructor
    · intro n hn
      have hn2 : st2.dependencies_init n = false := hn
      have hns : n ≠ self := by
        intro he
        rw [he, HselfFlag] at hn2
        cases hn2
      rw [hd3ne hns]
      exact HInv.1 n hn2
    · intro n x hx
      by_cases hns : n = self
      · subst hns
        rw [hd3self'] at hx
        exact ⟨(hnewfacts x hx).1, (hnewfacts x hx).2⟩
      · rw [hd3ne hns] at hx
        exact HInv.2 n x hx
  · -- OpenInv
    intro n hn
    have hn2 : st2.dependencies_init n = true := hn
    rcases HOpen n hn2 with hA | hOK
    · exact Or.inl hA
    · by_cases hns : n = self
      · exact Or.inl (hns ▸ List.mem_cons_self _ _)
      · exact Or.inr (entryOK_appendDeps Hfresh hns hOK)
  · -- self still fresh
    intro k
    by_cases hks : k = self
    · subst hks
      rw [hd3self']
      exact hself_not_new
    · rw [hd3ne hks]
      exact Hfresh k
  · -- new members are rank-bounded
    intro n x hx
    by_cases hns : n = self
    · subst hns
      rw [hd3self'] at hx
      rcases List.mem_append.mp hx with h | h
      · exact Or.inl h
      · exact Or.inr (hnewfacts x (List.mem_append.mpr (Or.inr h))).2
    · rw [hd3ne hns] at hx
      exact Or.inl hx

/-- The directive loop preserves the whole topological invariant
    bundle, given that the recursive resolve call does (`HR`). -/
theorem idl_master (reg : List GPUSource) (rank : Str → Nat)
    (resolve : RSt → GPUSource → Option (RSt × Nat)) (self : Str) (A : List Str)
    (HR : ∀ st g st2 r (A' : List Str), g ∈ reg → resolve st g = some (st2, r) →
      Inv rank st → OpenInv rank st A' →
      (∀ a ∈ A', rank g.filename < rank a) →
      Inv rank st2 ∧ OpenInv rank st2 A' ∧
        (∀ n, st.dependencies_init n = true → st2.dependencies_init n = true) ∧
        (∀ n, st.dependencies_init n = true → st2.dependencies n = st.dependencies n) ∧
        st2.dependencies_init g.filename = true ∧
        (∀ n x, x ∈ st2.dependencies n → x ∈ st.dependencies n ∨ rank x < rank g.filename) ∧
        entryOK rank st2 g.filename)
    (Hranks : ∀ a ∈ A, rank self < rank a) :
    ∀ dirs st st' r,
      init_dependencies_list reg resolve self st dirs = some (st', r) →
      (∀ d ∈ dirs, dirRankLt rank self d = true) →
      Inv rank st → OpenInv rank st (self :: A) →
      st.dependencies_init self = true →
      entryOK rank st self →
      (∀ k, self ∉ st.dependencies k) →
      Inv rank st' ∧ OpenInv rank st' (self :: A) ∧
        (∀ n, st.dependencies_init n = true → st'.dependencies_init n = true) ∧
        (∀ n, st.dependencies_init n = true → n ≠ self → st'.dependencies n = st.dependencies n) ∧
        entryOK rank st' self ∧
        (∀ k, self ∉ st'.dependencies k) ∧
        (∀ n x, x ∈ st'.dependencies n → x ∈ st.dependencies n ∨ rank x < rank self) := by
  intro dirs
  induction dirs with
  | nil =>
    intro st st' r h _ hInv hOpen hflag hentry hfresh
    rw [idl_nil] at h
    cases h
    exact ⟨hInv, hOpen, fun n hn => hn, fun n _ _ => rfl, hentry, hfresh, fun n x hx => Or.inl hx⟩
  | cons d rest ih =>
    intro st st' r h hdirs hInv hOpen hflag hentry hfresh
    match d with
    | ReqDir.malformed ofs =>
      rw [idl_malformed] at h
      cases h
      exact ⟨hInv, hOpen, fun n hn => hn, fun n _ _ => rfl, hentry, hfresh, fun n x hx => Or.inl hx⟩
    | ReqDir.good name ofs =>
      have hnamerank : rank name < rank self := by
        have := hdirs _ (List.mem_cons_self _ _)
        simpa [dirRankLt] using this
      cases hl : lookupFrag reg name with
      | none =>
        rw [idl_good_none hl] at h
        cases h
        exact ⟨hInv, hOpen, fun n hn => hn, fun n _ _ => rfl, hentry, hfresh, fun n x hx => Or.inl hx⟩
      | some dep =>
        have hdepname : dep.filename = name := lookupFrag_name hl
        have hdeprank : rank dep.filename < rank self := by rw [hdepname]; exact hnamerank
        cases hr : resolve st dep with
        | none => rw [idl_good_fuelout hl hr] at h; cases h
        | some p =>
          obtain ⟨st2, r2⟩ := p
          have hranks2 : ∀ a ∈ self :: A, rank dep.filename < rank a := by
            intro a ha
            rcases List.mem_cons.mp ha with rfl | ha
            · exact hdeprank
            · exact Nat.lt_trans hdeprank (Hranks a ha)
          obtain ⟨hInv2, hOpen2, hmono2, hframe2, hflag2, hnew2, hentry2⟩ :=
            HR st dep st2 r2 (self :: A) (lookupFrag_mem hl) hr hInv hOpen hranks2
          have hflagself2 : st2.dependencies_init self = true := hmono2 self hflag
          have hentryself2 : entryOK rank st2 self :=
            entryOK_mono hmono2 hframe2 hflag hentry
          have hfresh2 : ∀ k, self ∉ st2.dependencies k := by
            intro k hk
            rcases hnew2 k self hk with hold | hrk
            · exact hfresh k hold
            · exact Nat.lt_irrefl _ (Nat.lt_trans hrk hdeprank)
          by_cases hr0 : r2 = 0
          · subst hr0
            rw [idl_good_ok hl hr] at h
            obtain ⟨hInv3, hOpen3, hentry3, hfresh3, hnew3⟩ :=
              append_step rank st2 self dep.filename A hInv2 hOpen2 hentryself2
                hentry2 hflag2 hdeprank hflagself2 hfresh2
            have hflag3 : (appendDeps st2 self
                (st2.dependencies dep.filename ++ [dep.filename])).dependencies_init self = true :=
              hflagself2
            obtain ⟨hInvF, hOpenF, hmonoF, hframeF, hentryF, hfreshF, hnewF⟩ :=
              ih _ _ _ h (fun d hd => hdirs d (List.mem_cons_of_mem _ hd))
                hInv3 hOpen3 hflag3 hentry3 hfresh3
            refine ⟨hInvF, hOpenF, ?_, ?_, hentryF, hfreshF, ?_⟩
            · intro n hn
              exact hmonoF n (hmono2 n hn)
            · intro n hn hns
              have h2 : st2.dependencies n = st.dependencies n := hframe2 n hn
              have h3 : (appendDeps st2 self
                  (st2.dependencies dep.filename ++ [dep.filename])).dependencies n =
                  st2.dependencies n := appendDeps_deps_ne _ _ _ hns
              have h4 := hframeF n (hmono2 n hn) hns
              rw [h4, h3, h2]
            · intro n x hx
              rcases hnewF n x hx with h3 | hrk
              · rcases hnew3 n x h3 with h2 | hrk
                · rcases hnew2 n x h2 with h1 | hrk
                  · exact Or.inl h1
                  · exact Or.inr (Nat.lt_trans hrk hdeprank)
                · exact Or.inr hrk
              · exact Or.inr hrk
          · rw [idl_good_fail hl hr hr0] at h
            cases h
            refine ⟨hInv2, hOpen2, hmono2, fun n hn _ => hframe2 n hn, hentryself2, hfresh2, ?_⟩
            intro n x hx
            rcases hnew2 n x hx with h1 | hrk
            · exact Or.inl h1
            · exact Or.inr (Nat.lt_trans hrk hdeprank)

/-- The master invariant for `init_dependencies` itself: over a
    rank-certified (cycle-free) require graph, resolution preserves the
    ground and open invariants and leaves every completed fragment with
    a duplicate-free, dependency-first ordered list. -/
theorem id_master (reg : List GPUSource) (rank : Str → Nat) (hedge : EdgeRank reg rank) :
    ∀ (fuel : Nat) (st : RSt) (f : GPUSource) (st' : RSt) (r : Nat) (A : List Str), f ∈ reg →
      init_dependencies reg fuel st f = some (st', r) →
      Inv rank st → OpenInv rank st A →
      (∀ a ∈ A, rank f.filename < rank a) →
      Inv rank st' ∧ OpenInv rank st' A ∧
        (∀ n, st.dependencies_init n = true → st'.dependencies_init n = true) ∧
        (∀ n, st.dependencies_init n = true → st'.dependencies n = st.dependencies n) ∧
        st'.dependencies_init f.filename = true ∧
        (∀ n x, x ∈ st'.dependencies n → x ∈ st.dependencies n ∨ rank x < rank f.filename) ∧
        entryOK rank st' f.filename := by
  intro fuel
  induction fuel with
  | zero => intro st f st' r A _ h; rw [id_zero] at h; cases h
  | succ fuel ih =>
    intro st f st' r A hf h hInv hOpen hranks
    rw [id_succ] at h
    by_cases hflag : st.dependencies_init f.filename
    · rw [if_pos hflag] at h
      cases h
      have hentry : entryOK rank st f.filename := by
        rcases hOpen f.filename hflag with hA | hOK
        · exact absurd (hranks _ hA) (Nat.lt_irrefl _)
        · exact hOK
      exact ⟨hInv, hOpen, fun n hn => hn, fun n _ => rfl, hflag, fun n x hx => Or.inl hx, hentry⟩
    · rw [if_neg hflag] at h
      have hflagb : st.dependencies_init f.filename = false := by
        cases hfb : st.dependencies_init f.filename
        · rfl
        · exact absurd hfb hflag
      -- state after setting the memoization flag
      have hInv1 : Inv rank (setFlag st f.filename) := by
        constructor
        · intro n hn
          have hns : n ≠ f.filename := by
            intro he
            rw [he, setFlag_flag_self] at hn
            cases hn
          have h0 : st.dependencies_init n = false := by
            rw [← setFlag_flag_ne st f.filename hns]
            exact hn
          exact hInv.1 n h0
        · intro n x hx
          obtain ⟨h1, h2⟩ := hInv.2 n x hx
          exact ⟨setFlag_flag_mono st f.filename x h1, h2⟩
      have hOpen1 : OpenInv rank (setFlag st f.filename) (f.filename :: A) := by
        intro n hn
        rcases setFlag_flag_of st f.filename n hn with rfl | h0
        · exact Or.inl (List.mem_cons_self _ _)
        · rcases hOpen n h0 with hA | hOK
          · exact Or.inl (List.mem_cons_of_mem _ hA)
          · exact Or.inr (entryOK_mono
              (fun k => setFlag_flag_mono st f.filename k) (fun k _ => rfl) h0 hOK)
      have hentry1 : entryOK rank (setFlag st f.filename) f.filename := by
        have hempty : st.dependencies f.filename = [] := hInv.1 f.filename hflagb
        constructor
        · show (st.dependencies f.filename).Nodup
          rw [hempty]; exact List.nodup_nil
        · intro d hd
          have : d ∈ st.dependencies f.filename := hd
          rw [hempty] at this
          cases this
      have hfresh1 : ∀ k, f.filename ∉ (setFlag st f.filename).dependencies k := by
        intro k hk
        have : k ∈ [] ∨ True := Or.inr trivial
        have hmem : f.filename ∈ st.dependencies k := hk
        have := (hInv.2 k f.filename hmem).1
        rw [hflagb] at this
        cases this
      have hdirs1 : ∀ d ∈ scanRequires f.source, dirRankLt rank f.filename d = true :=
        fun d hd => hedge f hf d hd
      obtain ⟨hInvF, hOpenF, hmonoF, hframeF, hentryF, hfreshF, hnewF⟩ :=
        idl_master reg rank _ f.filename A
          (fun st0 g st2 r2 A' hg hres hI hO hk => ih st0 g st2 r2 A' hg hres hI hO hk)
          hranks _ _ _ _ h hdirs1 hInv1 hOpen1 (setFlag_flag_self st f.filename) hentry1 hfresh1
      refine ⟨hInvF, ?_, ?_, ?_, ?_, ?_, hentryF⟩
      · intro n hn
        rcases hOpenF n hn with hmem | hOK
        · rcases List.mem_cons.mp hmem with rfl | hA
          · exact Or.inr hentryF
          · exact Or.inl hA
        · exact Or.inr hOK
      · intro n hn
        exact hmonoF n (setFlag_flag_mono st f.filename n hn)
      · intro n hn
        have hns : n ≠ f.filename := fun he => hflag (he ▸ hn)
        have := hframeF n (setFlag_flag_mono st f.filename n hn) hns
        rwa [setFlag_deps] at this
      · exact hmonoF f.filename (setFlag_flag_self st f.filename)
      · intro n x hx
        rcases hnewF n x hx with h1 | hrk
        · rw [setFlag_deps] at h1
          exact Or.inl h1
        · exact Or.inr hrk

/-! ## C1 -/

/-- C1: the claim says a fragment's `builtin_flags` bit is set iff the
    keyword occurs as a substring of the raw text.  The constructor
    instead tests the truthiness of `source.find(keyword, 0)` (an
    `int64_t`, `-1` when absent), so a keyword at offset 0 yields a
    *clear* bit and an absent keyword yields a *set* bit.  Evaluating
    the scan at the failing inputs exhibits both divergences. -/
theorem c1_builtin_flags_bug :
    occursIn ("gl_FragCoord".toList) ("gl_FragCoord".toList) ∧
    builtins_scan ("gl_FragCoord".toList) &&& FRAG_COORD = 0 ∧
    ¬ occursIn ("x".toList) ("gl_FragCoord".toList) ∧
    builtins_scan ("x".toList) &&& FRAG_COORD = FRAG_COORD := by
  refine ⟨?_, by decide, ?_, by decide⟩
  · exact List.infix_rfl
  · intro h
    have := h.length_le
    simp at this

/-- C2 counterexample: a fragment with non-empty own builtin flags and
    no dependencies.  After its (successful, empty) resolution,
    `builtins_get` returns the empty bitset, not the union of the
    fragment's own flags with its dependencies' flags as the claim
    states. -/
theorem c2_counterexample :
    init_dependencies regX 2 initSt fragX = some (c2st, 0) ∧
    fragX.builtins ≠ 0 ∧
    builtins_get regX c2st fragX ≠
      fragX.builtins ||| unionFlags (((buildNames c2st fragX).dropLast).map (builtinOf regX)) := by
  refine ⟨rfl, by decide, by decide⟩

/-- C2 amended: `builtins_get` (and the `lookup_builtin_flags` query on
    a registered name) returns the bitwise union of the builtin flags
    of the entries of the resolved build sequence *excluding the
    fragment's own text block* — the fragment's own flags are not
    included. -/
theorem c2_builtins_union_deps :
    ∀ (reg : List GPUSource) (st : RSt) (f : GPUSource),
      builtins_get reg st f = unionFlags (((buildNames st f).dropLast).map (builtinOf reg)) ∧
      (∀ (name : Str), name ≠ [] → lookupFrag reg name = some f →
        gpu_shader_dependency_get_builtins reg st name =
          unionFlags (((buildNames st f).dropLast).map (builtinOf reg))) := by
  intro reg st f
  have hmain : builtins_get reg st f =
      unionFlags (((buildNames st f).dropLast).map (builtinOf reg)) := by
    rw [buildNames, List.dropLast_concat, builtins_get, unionFlags, List.foldl_map]
  refine ⟨hmain, ?_⟩
  intro name hne hl
  rw [gpu_shader_dependency_get_builtins, if_neg hne, hl]
  exact hmain

/-- Witness for C2's amended theorem at the concrete registry. -/
theorem c2_builtins_union_deps_witness :
    gpu_shader_dependency_get_builtins regX c2st ("x.glsl".toList) =
      unionFlags (((buildNames c2st fragX).dropLast).map (builtinOf regX)) :=
  (c2_builtins_union_deps regX c2st fragX).2 ("x.glsl".toList) (by decide) (by decide)

/-! ## C5 -/

/-- C5: resolving a fragment a second time after a completed resolve
    call is the identity: the memoization flag was set by the first
    call, so the second returns the state untouched (same dependency
    list, same order) with success. -/
theorem c5_idempotent :
    ∀ (reg : List GPUSource) (fuel1 fuel2 : Nat) (st : RSt) (f : GPUSource) (st' : RSt) (r : Nat),
      init_dependencies reg fuel1 st f = some (st', r) →
      1 ≤ fuel2 →
      init_dependencies reg fuel2 st' f = some (st', 0) := by
  intro reg fuel1 fuel2 st f st' r h hfuel
  have hflag : st'.dependencies_init f.filename = true := (id_basic reg fuel1 st f st' r h).2
  match fuel2, hfuel with
  | fuel2 + 1, _ =>
    rw [id_succ, if_pos hflag]

/-- Witness for C5: the second resolve of `A` returns the state left by
    the first one, unchanged. -/
theorem c5_idempotent_witness :
    init_dependencies regABC 4 c3st fragA = some (c3st, 0) :=
  c5_idempotent regABC 4 4 initSt fragA c3st 0 rfl (by decide)

/-! ## C9 -/

/-- C9: dependency resolution terminates for every registry and every
    starting fragment, cyclic require graphs included: the flag set
    before any directive is scanned bounds the recursion, so fuel
    exceeding the number of unresolved registry fragments is never
    exhausted; and a fragment whose flag is already set returns
    immediately, so each scan body executes at most once. -/
theorem c9_termination :
    ∀ (reg : List GPUSource) (st : RSt) (f : GPUSource) (fuel : Nat),
      f ∈ reg →
      unresolvedCount reg st < fuel →
      (init_dependencies reg fuel st f).isSome = true ∧
      (∀ st2 : RSt, st2.dependencies_init f.filename = true →
        init_dependencies reg fuel st2 f = some (st2, 0)) := by
  intro reg st f fuel hf hfuel
  refine ⟨id_total reg fuel st f hf hfuel, ?_⟩
  intro st2 hflag
  match fuel, hfuel with
  | fuel + 1, _ =>
    rw [id_succ, if_pos hflag]

/-- Witness for C9 on a cyclic registry (`P` requires `Q` requires
    `P`): resolution still returns. -/
theorem c9_termination_witness :
    (init_dependencies regPQ 3 initSt fragP).isSome = true :=
  (c9_termination regPQ initSt fragP 3 (by decide) (by decide)).1

/-- The initial state satisfies the ground invariant for any rank. -/
theorem inv_initSt (rank : Str → Nat) : Inv rank initSt :=
  ⟨fun _ _ => rfl, fun _ x hx => absurd hx (List.not_mem_nil x)⟩

/-- The initial state satisfies the open invariant vacuously. -/
theorem openInv_initSt (rank : Str → Nat) (A : List Str) : OpenInv rank initSt A := by
  intro n hn
  simp [initSt] at hn

/-! ## C3 -/

/-- C3: over a require graph certified cycle-free by a rank function,
    for any fragment whose resolution succeeded (from any state
    satisfying the resolution invariants, e.g. the initial state), the
    build sequence is a topological order: every entry is preceded by
    all of that entry's own resolved dependencies, the list is
    duplicate-free, and the fragment's own entry comes last.  In
    particular, for `A` requires `B` requires `C`, the resolved build
    sequence of `A` is `[text C, text B, text A]`. -/
theorem c3_topological_order :
    (∀ (reg : List GPUSource) (rank : Str → Nat) (fuel : Nat) (st : RSt)
        (f : GPUSource) (st' : RSt),
      EdgeRank reg rank →
      Inv rank st → OpenInv rank st [] →
      f ∈ reg →
      init_dependencies reg fuel st f = some (st', 0) →
      (buildNames st' f).getLast? = some f.filename ∧
      (buildNames st' f).Nodup ∧
      (∀ d ∈ buildNames st' f, ∀ e ∈ st'.dependencies d, IsBefore (buildNames st' f) e d)) ∧
    init_dependencies regABC 4 initSt fragA = some (c3st, 0) ∧
    build regABC c3st fragA = [fragC.source, fragB.source, fragA.source] := by
  refine ⟨?_, rfl, by decide⟩
  intro reg rank fuel st f st' hedge hInv hOpen hf h
  obtain ⟨hInvF, _, _, _, _, _, hentryF⟩ :=
    id_master reg rank hedge fuel st f st' 0 [] hf h hInv hOpen
      (fun a ha => absurd ha (List.not_mem_nil a))
  have hfn : f.filename ∉ st'.dependencies f.filename := fun hm =>
    Nat.lt_irrefl _ (hInvF.2 f.filename f.filename hm).2
  refine ⟨?_, ?_, ?_⟩
  · rw [buildNames]
    exact List.getLast?_concat _
  · rw [buildNames, List.nodup_append]
    refine ⟨hentryF.1, List.nodup_singleton _, ?_⟩
    intro x hx h1
    rcases List.mem_singleton.mp h1 with rfl
    exact hfn hx
  · intro d hd e he
    rw [buildNames] at hd ⊢
    rcases List.mem_append.mp hd with hdd | hdf
    · obtain ⟨_, _, _, hord⟩ := hentryF.2 d hdd
      exact (hord e he).append_right _
    · rcases List.mem_singleton.mp hdf with rfl
      exact isBefore_of_mem_mem he (List.mem_singleton.mpr rfl)

/-- Witness for C3's general part at the concrete `A → B → C` chain. -/
theorem c3_topological_order_witness :
    (buildNames c3st fragA).getLast? = some fragA.filename ∧
    (buildNames c3st fragA).Nodup ∧
    (∀ d ∈ buildNames c3st fragA, ∀ e ∈ c3st.dependencies d, IsBefore (buildNames c3st fragA) e d) :=
  c3_topological_order.1 regABC rankABC 4 initSt fragA c3st (by decide)
    (inv_initSt rankABC) (openInv_initSt rankABC []) (by decide) rfl

/-! ## C6 -/

/-- C6 counterexample: a fragment whose text requires the fragment
    itself.  Resolution completes successfully and leaves the fragment
    as the sole entry of its *own* dependency list, contradicting the
    claim that `dependencies` never contains the fragment itself. -/
theorem c6_counterexample :
    init_dependencies regF 2 initSt fragF = some (c6st, 0) ∧
    c6st.dependencies ("F".toList) = ["F".toList] ∧
    fragF.filename ∈ c6st.dependencies fragF.filename := by
  exact ⟨rfl, by decide, by decide⟩

/-- C6 amended: at every point during and after resolution the
    dependency lists are duplicate-free — each single
    `append_non_duplicates` preserves duplicate-freeness, and so does
    every resolve call, over any registry (cyclic ones included); the
    list never contains the fragment itself *provided the require graph
    is cycle-free* (a fragment on a require cycle, e.g. one requiring
    itself, ends up in its own list). -/
theorem c6_no_duplicates :
    (∀ (l xs : List Str), l.Nodup → (appendND l xs).Nodup) ∧
    (∀ (reg : List GPUSource) (fuel : Nat) (st : RSt) (f : GPUSource) (st' : RSt) (r : Nat),
      (∀ n, (st.dependencies n).Nodup) →
      init_dependencies reg fuel st f = some (st', r) →
      ∀ n, (st'.dependencies n).Nodup) ∧
    (∀ (reg : List GPUSource) (rank : Str → Nat) (fuel : Nat) (st : RSt)
        (f : GPUSource) (st' : RSt) (r : Nat),
      EdgeRank reg rank → Inv rank st → OpenInv rank st [] → f ∈ reg →
      init_dependencies reg fuel st f = some (st', r) →
      ∀ n, n ∉ st'.dependencies n) := by
  refine ⟨fun l xs h => appendND_nodup h, ?_, ?_⟩
  · intro reg fuel st f st' r hn h n
    exact (id_basic reg fuel st f st' r h).1.nodup n (hn n)
  · intro reg rank fuel st f st' r hedge hInv hOpen hf h n
    obtain ⟨hInvF, _⟩ := id_master reg rank hedge fuel st f st' r [] hf h hInv hOpen
      (fun a ha => absurd ha (List.not_mem_nil a))
    intro hm
    exact Nat.lt_irrefl _ (hInvF.2 n n hm).2

/-- Witness for C6's amended theorem on the acyclic `A → B → C` chain. -/
theorem c6_no_duplicates_witness :
    (c3st.dependencies ("A".toList)).Nodup ∧ "A".toList ∉ c3st.dependencies ("A".toList) :=
  ⟨c6_no_duplicates.2.1 regABC 4 initSt fragA c3st 0 (fun _ => List.nodup_nil) rfl ("A".toList),
   c6_no_duplicates.2.2 regABC rankABC 4 initSt fragA c3st 0 (by decide)
     (inv_initSt rankABC) (openInv_initSt rankABC []) (by decide) rfl ("A".toList)⟩

/-! ## C4 -/

/-- C4 counterexample: `F` has a require-directive naming an
    unregistered fragment; resolving `F` fails (result 1) and reports
    `MissingDependency`.  But the failure sets the memoization flag, so
    resolving `G` — which transitively requires `F` — *afterwards*
    returns success (result 0), contradicting the claim that every
    fragment transitively requiring `F` also fails. -/
theorem c4_counterexample :
    init_dependencies regFG 3 initSt fragFM = some (c4st1, 1) ∧
    ErrEv.missingDependency ("F".toList) 23 ∈ c4st1.errs ∧
    Relation.TransGen (Step regFG) ("G".toList) ("F".toList) ∧
    init_dependencies regFG 3 c4st1 fragG = some (c4st2, 0) := by
  exact ⟨rfl, by decide, Relation.TransGen.single ⟨23, by decide⟩, rfl⟩

/-- C4 amended: (i) a fragment one of whose directives is malformed or
    names an unregistered fragment fails to resolve; (ii) every
    fragment that transitively requires it also fails, *when resolved
    while nothing has been resolved yet* (e.g. first, from the initial
    state); (iii) a fragment all of whose transitively required
    directives are well-formed and registered resolves successfully;
    (iv) however failure is memoized as "resolved", so once the broken
    fragment's flag is set, a later resolve of a dependent returns
    success. -/
theorem c4_missing_dependency :
    (∀ (reg : List GPUSource) (fuel : Nat) (st : RSt) (f : GPUSource),
      f ∈ reg → st.dependencies_init f.filename = false →
      unresolvedCount reg st < fuel →
      (∃ d ∈ scanRequires f.source, ¬ dirOK reg d) →
      ∃ st', init_dependencies reg fuel st f = some (st', 1)) ∧
    (∀ (reg : List GPUSource) (fuel : Nat) (st : RSt) (G F : GPUSource),
      RegNodup reg → G ∈ reg → F ∈ reg →
      (∀ n, st.dependencies_init n = false) →
      unresolvedCount reg st < fuel →
      Relation.TransGen (Step reg) G.filename F.filename →
      (∃ d ∈ scanRequires F.source, ¬ dirOK reg d) →
      ∃ st', init_dependencies reg fuel st G = some (st', 1)) ∧
    (∀ (reg : List GPUSource) (fuel : Nat) (st : RSt) (H : GPUSource),
      RegNodup reg → H ∈ reg →
      (∀ n, Relation.ReflTransGen (Step reg) H.filename n → WellReqN reg n) →
      unresolvedCount reg st < fuel →
      ∃ st', init_dependencies reg fuel st H = some (st', 0)) ∧
    (∀ (reg : List GPUSource) (fuel : Nat) (st : RSt) (f : GPUSource),
      st.dependencies_init f.filename = true →
      init_dependencies reg (fuel+1) st f = some (st, 0)) := by
  refine ⟨?_, ?_, ?_, ?_⟩
  · -- (i)
    intro reg fuel st f hf hflag hfuel hbad
    obtain ⟨d, hd, hbadd⟩ := hbad
    have hsome := id_total reg fuel st f hf hfuel
    obtain ⟨p, h⟩ := Option.isSome_iff_exists.mp hsome
    obtain ⟨st', r⟩ := p
    rcases id_code01 reg fuel st f st' r h with rfl | rfl
    · exfalso
      obtain ⟨fuel, rfl⟩ : ∃ k, fuel = k + 1 := ⟨fuel - 1, by omega⟩
      rw [id_succ, if_neg (by simp [hflag])] at h
      exact hbadd (idl_okdirs reg _ f.filename _ _ _ h d hd)
    · exact ⟨st', h⟩
  · -- (ii)
    intro reg fuel st G F hnod hG hF hfresh hfuel htg hbad
    obtain ⟨d, hd, hbadd⟩ := hbad
    have hsome := id_total reg fuel st G hG hfuel
    obtain ⟨p, h⟩ := Option.isSome_iff_exists.mp hsome
    obtain ⟨st', r⟩ := p
    rcases id_code01 reg fuel st G st' r h with rfl | rfl
    · exfalso
      obtain ⟨hGflag, _, hinv⟩ := id_closed reg hnod fuel st G st' [] hG h
        (fun n hn => absurd hn (by simp [hfresh n]))
      have hclosedAll : ∀ n, st'.dependencies_init n = true → Closed reg st' n := by
        intro n hn
        rcases hinv n hn with hmem | hC
        · cases hmem
        · exact hC
      have hreach : ∀ a b, Relation.TransGen (Step reg) a b →
          st'.dependencies_init a = true → st'.dependencies_init b = true := by
        intro a b htg2
        induction htg2 with
        | single hstep =>
          intro ha
          obtain ⟨ofs, hmem⟩ := hstep
          exact ((hclosedAll _ ha) _ hmem).2 _ ofs rfl
        | tail _ hstep ih =>
          intro ha
          obtain ⟨ofs, hmem⟩ := hstep
          exact ((hclosedAll _ (ih ha)) _ hmem).2 _ ofs rfl
      have hFflag : st'.dependencies_init F.filename = true := hreach _ _ htg hGflag
      have hFclosed := hclosedAll F.filename hFflag
      have hFd : dirsOfName reg F.filename = scanRequires F.source := by
        rw [dirsOfName, lookupFrag_self hnod hF]
      have := (hFclosed d (by rw [hFd]; exact hd)).1
      exact hbadd this
    · exact ⟨st', h⟩
  · -- (iii)
    intro reg fuel st H hnod hH hwell hfuel
    exact id_success reg hnod fuel st H hH hwell hfuel
  · -- (iv)
    intro reg fuel st f hflag
    rw [id_succ, if_pos hflag]

/-- Witness for C4's amended theorem: the broken fragment and its
    dependent both fail when resolved first from the initial state; a
    sibling with no requires resolves successfully. -/
theorem c4_missing_dependency_witness :
    (∃ st', init_dependencies regFG 3 initSt fragFM = some (st', 1)) ∧
    (∃ st', init_dependencies regFG 3 initSt fragG = some (st', 1)) ∧
    (∃ st', init_dependencies regABC 4 initSt fragC = some (st', 0)) := by
  refine ⟨?_, ?_, ?_⟩
  · exact c4_missing_dependency.1 regFG 3 initSt fragFM (by decide) rfl (by decide) (by decide)
  · exact c4_missing_dependency.2.1 regFG 3 initSt fragG fragFM (by decide) (by decide)
      (by decide) (fun n => rfl) (by decide)
      (Relation.TransGen.single ⟨23, by decide⟩) (by decide)
  · refine c4_missing_dependency.2.2.1 regABC 4 initSt fragC (by decide) (by decide) ?_ (by decide)
    intro n hn
    have hdirs : dirsOfName regABC ("C".toList) = [] := by decide
    have hstep : ∀ m, ¬ Step regABC ("C".toList) m := by
      intro m hs
      obtain ⟨ofs, hmem⟩ := hs
      rw [hdirs] at hmem
      cases hmem
    have hn2 : n = "C".toList := (Relation.reflTransGen_iff_eq hstep).mp hn
    subst hn2
    decide

theorem findFrom_some {hay needle : Str} {start i : Nat}
    (h : findFrom hay needle start = some i) :
    start ≤ i ∧ i ≤ hay.length ∧ substrAt hay needle i = true := by
  have h1 := List.find?_some h
  have h2 := List.mem_of_find?_eq_some h
  rw [List.mem_range] at h2
  simp only [Bool.and_eq_true, decide_eq_true_eq] at h1
  exact ⟨h1.1, by omega, h1.2⟩

/-- When no accepted `enum ` token exists, the whole-word scan returns
    the not-found sentinel from any offset and with any fuel. -/
theorem findStr_enum_none (input : Str)
    (Hno : ∀ i ∈ List.range (input.length + 1), ¬ enumTokenAt input i) :
    ∀ (fuel : Nat) (ofs : Int),
      findStrGo true false input ("enum ".toList) fuel ofs = -1 := by
  intro fuel
  induction fuel with
  | zero => intro ofs; rfl
  | succ fuel ih =>
    intro ofs
    have hkey : findI input ("enum ".toList) ofs = -1 ∨
        ∃ i : Nat, findI input ("enum ".toList) ofs = (i : Int) ∧
          i ≤ input.length ∧ substrAt input ("enum ".toList) i = true := by
      rw [findI]
      split
      · exact Or.inl rfl
      · cases hF : findFrom input ("enum ".toList) ofs.toNat with
        | none => exact Or.inl rfl
        | some i =>
          obtain ⟨_, h2, h3⟩ := findFrom_some hF
          exact Or.inr ⟨i, rfl, h2, h3⟩
    show (let p := findI input ("enum ".toList) ofs
          if p > 0 then
            if true && !(isWordSeparator (charAt input (p - 1))) then
              findStrGo true false input ("enum ".toList) fuel (p + 1)
            else if is_in_comment input p then
              findStrGo true false input ("enum ".toList) fuel (p + 1)
            else p
          else p) = -1
    rcases hkey with hneg | ⟨i, heq, hle, hsub⟩
    · simp only [hneg]
      norm_num
    · simp only [heq]
      by_cases hi : (0 : Int) < (i : Int)
      · rw [if_pos hi]
        by_cases hw : isWordSeparator (charAt input ((i : Int) - 1)) = true
        · rw [if_neg (by simp [hw])]
          by_cases hcmt : is_in_comment input (i : Int) = true
          · rw [if_pos hcmt]
            exact ih _
          · exfalso
            exact Hno i (List.mem_range.mpr (by omega))
              ⟨hsub, Or.inr ⟨hw, by simpa using hcmt⟩⟩
        · rw [if_pos (by simp [hw])]
          exact ih _
      · exfalso
        have hz : i = 0 := by
          by_contra hnz
          exact hi (by exact_mod_cast Nat.pos_of_ne_zero hnz)
        exact Hno i (List.mem_range.mpr (by omega)) ⟨hsub, Or.inl hz⟩

/-- C8: a fragment whose text contains no occurrence of the `enum `
    token (whole-word, outside comments) is untouched by enum
    rewriting: the loop finds no match, `last_pos` never moves, no
    rewritten text is materialised, no error is reported, and the
    fragment's effective source equals the raw text byte-for-byte. -/
theorem c8_enum_identity :
    ∀ (filename input : Str) (isCpp : Bool),
      (∀ i ∈ List.range (input.length + 1), ¬ enumTokenAt input i) →
      enum_preprocess isCpp input = (none, []) ∧
      (effective_source filename input).1 = input := by
  intro filename input isCpp Hno
  have hfind := findStr_enum_none input Hno
  have hc : find_keyword input ("enum ".toList) ((-1 : Int) + 1) = -1 := by
    rw [find_keyword, find_str]
    exact hfind _ _
  have hgo : enumGo isCpp input (input.length + 2) (-1) 0 [] [] = (0, [], []) := by
    show enumGo isCpp input (input.length + 1 + 1) (-1) 0 [] [] = (0, [], [])
    simp only [enumGo]
    rw [hc]
    simp
  have hpre : enum_preprocess isCpp input = (none, []) := by
    rw [enum_preprocess, hgo]
    rfl
  refine ⟨hpre, ?_⟩
  rw [effective_source]
  split
  · next h =>
    -- the shared-header branch runs the (no-op) rewriter
    by_cases hh : (".hh".toList).isSuffixOf filename = true
    · rw [show enum_preprocess ((".hh".toList).isSuffixOf filename) input = (none, []) from by
        rw [hh]
        have hfind2 := findStr_enum_none input Hno
        have hc2 : find_keyword input ("enum ".toList) ((-1 : Int) + 1) = -1 := by
          rw [find_keyword, find_str]; exact hfind2 _ _
        have hgo2 : enumGo true input (input.length + 2) (-1) 0 [] [] = (0, [], []) := by
          show enumGo true input (input.length + 1 + 1) (-1) 0 [] [] = (0, [], [])
          simp only [enumGo]
          rw [hc2]
          simp
        rw [enum_preprocess, hgo2]
        rfl]
      rfl
    · rw [show ((".hh".toList).isSuffixOf filename) = false from by
        rw [← Bool.not_eq_true]
        exact hh]
      have hgo2 : enumGo false input (input.length + 2) (-1) 0 [] [] = (0, [], []) := by
        show enumGo false input (input.length + 1 + 1) (-1) 0 [] [] = (0, [], [])
        simp only [enumGo]
        rw [hc]
        simp
      rw [show enum_preprocess false input = (none, []) from by
        rw [enum_preprocess, hgo2]
        rfl]
      rfl
  · rfl

theorem c8_enum_identity_witness :
    enum_preprocess false c8input = (none, []) ∧
    (effective_source ("a.h".toList) c8input).1 = c8input :=
  c8_enum_identity ("a.h".toList) c8input false (by decide)

theorem handle_function_some {cap : Nat} {fragname input : Str} {st : FunSt}
    {funcName funcArgs : Str} {other : GPUFunction}
    (hl : dictLookup st.dict funcName = some other) :
    handle_function cap fragname input st funcName funcArgs =
      if other.srcName ≠ fragname then
        { st with errs := st.errs ++
            [ErrEv.funcRedefinition fragname (findI input funcName 0),
             ErrEv.funcRedefinitionPrev fragname (findI other.srcText funcName 0)] }
      else st := by
  unfold handle_function
  rw [hl]

theorem handle_function_none {cap : Nat} {fragname input : Str} {st : FunSt}
    {funcName funcArgs : Str}
    (hl : dictLookup st.dict funcName = none) :
    handle_function cap fragname input st funcName funcArgs =
      { dict := st.dict ++ [(funcName, GPUFunction.mk funcName fragname input
          (process_params cap fragname input funcName (arg_strings funcArgs) 0).1
          (process_params cap fragname input funcName (arg_strings funcArgs) 0).2.1
          (process_params cap fragname input funcName (arg_strings funcArgs) 0).2.1.length)],
        errs := st.errs ++
          (process_params cap fragname input funcName (arg_strings funcArgs) 0).2.2 } := by
  unfold handle_function
  rw [hl]

/-- C7: a name already registered by a *different* fragment triggers a
    redefinition report citing both declaration offsets (the name's
    position in the current text and in the previous owner's text) and
    leaves the registry unchanged (first writer wins); the same name
    from the *same* fragment is silently dropped, leaving state and log
    untouched.  End-to-end: two library fragments declaring `foo` keep
    exactly `lib1`'s entry and log the two redefinition events; one
    fragment declaring `foo` twice keeps one entry and logs nothing. -/
theorem c7_function_redefinition :
    (∀ (cap : Nat) (fragname input : Str) (st : FunSt) (funcName funcArgs : Str)
        (other : GPUFunction),
      dictLookup st.dict funcName = some other →
      other.srcName ≠ fragname →
      (handle_function cap fragname input st funcName funcArgs).dict = st.dict ∧
      (handle_function cap fragname input st funcName funcArgs).errs = st.errs ++
        [ErrEv.funcRedefinition fragname (findI input funcName 0),
         ErrEv.funcRedefinitionPrev fragname (findI other.srcText funcName 0)]) ∧
    (∀ (cap : Nat) (fragname input : Str) (st : FunSt) (funcName funcArgs : Str)
        (other : GPUFunction),
      dictLookup st.dict funcName = some other →
      other.srcName = fragname →
      handle_function cap fragname input st funcName funcArgs = st) ∧
    ((build_sources 36 [(lib1, text1), (lib2, text2)]).2.dict.map (fun p => p.1) =
        ["foo".toList] ∧
      (dictLookup (build_sources 36 [(lib1, text1), (lib2, text2)]).2.dict
          ("foo".toList)).map (fun f => f.srcName) = some lib1 ∧
      (build_sources 36 [(lib1, text1), (lib2, text2)]).2.errs =
        [ErrEv.funcRedefinition lib2 5, ErrEv.funcRedefinitionPrev lib2 5]) ∧
    ((build_sources 36 [(lib1, textDup)]).2.dict.map (fun p => p.1) = ["foo".toList] ∧
      (build_sources 36 [(lib1, textDup)]).2.errs = []) := by
  refine ⟨?_, ?_, by decide, by decide⟩
  · intro cap fragname input st funcName funcArgs other hl hne
    rw [handle_function_some hl, if_pos hne]
    exact ⟨rfl, rfl⟩
  · intro cap fragname input st funcName funcArgs other hl he
    rw [handle_function_some hl, if_neg (by simp [he])]

/-- Witness for C7's general parts at a concrete dictionary state. -/
theorem c7_function_redefinition_witness :
    (handle_function 36 lib2 text2 stFoo ("foo".toList) ("vec3 v".toList)).dict = stFoo.dict ∧
    (handle_function 36 lib2 text2 stFoo ("foo".toList) ("vec3 v".toList)).errs = stFoo.errs ++
      [ErrEv.funcRedefinition lib2 (findI text2 ("foo".toList) 0),
       ErrEv.funcRedefinitionPrev lib2 (findI otherFoo.srcText ("foo".toList) 0)] ∧
    handle_function 36 lib1 text1 stFoo ("foo".toList) ("float x".toList) = stFoo := by
  obtain ⟨h1, h2⟩ := c7_function_redefinition.1 36 lib2 text2 stFoo ("foo".toList)
    ("vec3 v".toList) otherFoo (by decide) (by decide)
  exact ⟨h1, h2,
    c7_function_redefinition.2.1 36 lib1 text1 stFoo ("foo".toList) ("float x".toList)
      otherFoo (by decide) rfl⟩

/-! ## C10 -/

/-- The parameter loop never records more than `cap` entries: `totparam`
    (the number of recorded parameters, equal to both array lengths)
    stays within the capacity, and when the argument list is longer
    than the remaining capacity the too-many-parameters error is
    reported and the loop stops exactly at the capacity. -/
theorem process_params_bounds :
    ∀ (cap : Nat) (fragname source funcName : Str) (args : List Str) (tot : Nat),
      tot ≤ cap →
      (process_params cap fragname source funcName args tot).1.length =
        (process_params cap fragname source funcName args tot).2.1.length ∧
      tot + (process_params cap fragname source funcName args tot).2.1.length ≤ cap ∧
      (cap < tot + args.length →
        tot + (process_params cap fragname source funcName args tot).2.1.length = cap ∧
        ErrEv.tooManyParams fragname (findI source funcName 0) ∈
          (process_params cap fragname source funcName args tot).2.2) := by
  intro cap fragname source funcName args
  induction args with
  | nil =>
    intro tot htot
    refine ⟨rfl, by simpa using htot, ?_⟩
    intro hover
    simp at hover
    omega
  | cons a args ih =>
    intro tot htot
    by_cases hge : cap ≤ tot
    · have heq : process_params cap fragname source funcName (a :: args) tot =
          ([], [], [ErrEv.tooManyParams fragname (findI source funcName 0)]) := by
        show (if cap ≤ tot then _ else _) = _
        rw [if_pos hge]
      rw [heq]
      have htoteq : tot = cap := Nat.le_antisymm htot hge
      exact ⟨rfl, by simpa using htot, fun _ => ⟨by simpa using htoteq, List.mem_singleton.mpr rfl⟩⟩
    · have heq : process_params cap fragname source funcName (a :: args) tot =
          (parse_qualifier (arg_keywords a).1 ::
             (process_params cap fragname source funcName args (tot+1)).1,
           parse_type (arg_keywords a).2.1 ::
             (process_params cap fragname source funcName args (tot+1)).2.1,
           (if parse_type (arg_keywords a).2.1 = eGPUType.GPU_NONE then
              [ErrEv.unknownParamType fragname
                (rfind_keyword source (arg_keywords a).2.1
                  (find_keyword source (arg_keywords a).2.2 (findI source funcName 0)))]
            else []) ++
             (process_params cap fragname source funcName args (tot+1)).2.2) := by
        show (if cap ≤ tot then _ else _) = _
        rw [if_neg hge]
      rw [heq]
      obtain ⟨ihlen, ihle, ihover⟩ := ih (tot + 1) (by omega)
      refine ⟨by simpa using ihlen, ?_, ?_⟩
      · simp only [List.length_cons]
        omega
      intro hover
      have hover1 : cap < (tot + 1) + args.length := by
        simp at hover
        omega
      obtain ⟨hend, hmem⟩ := ihover hover1
      constructor
      · simp only [List.length_cons]
        omega
      · exact List.mem_append.mpr (Or.inr hmem)

/-- C10: every write to `paramqual`/`paramtype` is in bounds — the
    recorded parameters never exceed the fixed array capacity (modelled
    from the spec: the capacity constant lives in
    `gpu_material_library.h`, outside the inspected sources, so the
    theorem holds for an arbitrary capacity `cap`); once the capacity
    is reached with arguments remaining, the too-many-parameters error
    is reported and that declaration's parameter scan stops; the
    function record inserted by `handle_function` therefore has
    `totparam ≤ cap` with both parameter arrays of length `totparam`. -/
theorem c10_param_capacity :
    (∀ (cap : Nat) (fragname source funcName : Str) (args : List Str) (tot : Nat),
      tot ≤ cap →
      tot + (process_params cap fragname source funcName args tot).2.1.length ≤ cap ∧
      (cap < tot + args.length →
        tot + (process_params cap fragname source funcName args tot).2.1.length = cap ∧
        ErrEv.tooManyParams fragname (findI source funcName 0) ∈
          (process_params cap fragname source funcName args tot).2.2)) ∧
    (∀ (cap : Nat) (fragname input : Str) (st : FunSt) (funcName funcArgs : Str),
      dictLookup st.dict funcName = none →
      ∃ f : GPUFunction,
        (handle_function cap fragname input st funcName funcArgs).dict =
          st.dict ++ [(funcName, f)] ∧
        f.totparam ≤ cap ∧ f.paramtype.length = f.totparam ∧
        f.paramqual.length = f.totparam) := by
  constructor
  · intro cap fragname source funcName args tot htot
    obtain ⟨_, h2, h3⟩ := process_params_bounds cap fragname source funcName args tot htot
    exact ⟨h2, h3⟩
  · intro cap fragname input st funcName funcArgs hl
    obtain ⟨hlen, hle, _⟩ :=
      process_params_bounds cap fragname input funcName (arg_strings funcArgs) 0 (Nat.zero_le _)
    refine ⟨⟨funcName, fragname, input,
      (process_params cap fragname input funcName (arg_strings funcArgs) 0).1,
      (process_params cap fragname input funcName (arg_strings funcArgs) 0).2.1,
      (process_params cap fragname input funcName (arg_strings funcArgs) 0).2.1.length⟩,
      ?_, by simpa using hle, rfl, hlen⟩
    rw [handle_function_none hl]

/-- Witness for C10 at capacity 2 with a three-parameter declaration. -/
theorem c10_param_capacity_witness :
    0 + (process_params 2 ("f".toList) ("void foo(float x, float y, float z)".toList)
      ("foo".toList) (arg_strings ("float x, float y, float z".toList)) 0).2.1.length ≤ 2 ∧
    (2 < 0 + (arg_strings ("float x, float y, float z".toList)).length →
      0 + (process_params 2 ("f".toList) ("void foo(float x, float y, float z)".toList)
        ("foo".toList) (arg_strings ("float x, float y, float z".toList)) 0).2.1.length = 2 ∧
      ErrEv.tooManyParams ("f".toList)
        (findI ("void foo(float x, float y, float z)".toList) ("foo".toList) 0) ∈
        (process_params 2 ("f".toList) ("void foo(float x, float y, float z)".toList)
          ("foo".toList) (arg_strings ("float x, float y, float z".toList)) 0).2.2) :=
  c10_param_capacity.1 2 ("f".toList) ("void foo(float x, float y, float z)".toList)
    ("foo".toList) (arg_strings ("float x, float y, float z".toList)) 0 (by decide)

end GPUShaderDep
